import Mathlib

/-!
Verification development for the Punnyland joke-classifier and corpus-curation
tools (`tools/rate_jokes_original.py`, `tools/rate_jokes_improved_backup.py`,
`tools/audit_jokes.py`, `tools/deduplicate_jokes.py`, `tools/auto_reclassify.py`).

The Python code is shallowly embedded: strings are Lean `String`s processed as
`List Char`, Python ints are `Int`/`Nat`, Python floats (confidences) are
modelled as exact rationals `ℚ`, regular expressions are translated into a
small regex datatype with a backtracking matcher, and the JSON corpus object is
an association list from level keys to lists of joke strings (keys are unique
in a JSON object; where a statement needs this it carries a `Nodup` hypothesis).
Character classes (`\w`, `\s`, lowercasing) are modelled over the ASCII range,
which covers the corpus character set enforced by the validators.
-/

namespace Punny

/-- The ASCII apostrophe character. -/
def apos : Char := Char.ofNat 39

/-- The apostrophe as a one-character string. -/
def aposS : String := String.mk [apos]

/-- Python `str.lower` restricted to ASCII: uppercase letters are shifted by 32. -/
def pyLower (c : Char) : Char :=
  if 65 ≤ c.toNat && c.toNat ≤ 90 then Char.ofNat (c.toNat + 32) else c

/-- Python whitespace class `\s` (ASCII part): space, tab, newline, CR, VT, FF. -/
def isPySpace (c : Char) : Bool :=
  c = ' ' || c = '\t' || c = '\n' || c = '\r' || c = '\x0b' || c = '\x0c'

/-- Python word class `\w` (ASCII part): alphanumerics and underscore. -/
def isWordChar (c : Char) : Bool :=
  c.isAlphanum || c = '_'

/-- The character class `[a-z]`. -/
def isLowerAZ (c : Char) : Bool :=
  97 ≤ c.toNat && c.toNat ≤ 122

/-- Characters kept (not replaced by a space) by the normalizer regex
`[^\w\s']`: word characters, whitespace and the apostrophe. -/
def keepChar (c : Char) : Bool :=
  isWordChar c || isPySpace c || c = apos

/-- `s.map pyLower`, the embedding of Python `str.lower()`. -/
def lowerStep (l : List Char) : List Char := l.map pyLower

/-- The embedding of `re.sub(r"[^\w\s']", " ", s)`. -/
def replaceStep (l : List Char) : List Char :=
  l.map (fun c => if keepChar c then c else ' ')

/-- Worker for whitespace collapsing: the flag records whether the previous
kept character position was inside a whitespace run. -/
def collapseAux : Bool → List Char → List Char
  | _, [] => []
  | prevSpace, c :: cs =>
    if isPySpace c then
      if prevSpace then collapseAux true cs
      else ' ' :: collapseAux true cs
    else c :: collapseAux false cs

/-- The embedding of `re.sub(r'\s+', ' ', s)`: every maximal whitespace run
becomes a single space. -/
def collapseStep (l : List Char) : List Char := collapseAux false l

/-- Drop leading whitespace (the left half of Python `str.strip()`). -/
def trimStart (l : List Char) : List Char := l.dropWhile isPySpace

/-- Drop trailing whitespace (the right half of Python `str.strip()`). -/
def trimEnd : List Char → List Char
  | [] => []
  | c :: cs =>
    match trimEnd cs with
    | [] => if isPySpace c then [] else [c]
    | t => c :: t

/-- The embedding of Python `str.strip()`. -/
def stripStep (l : List Char) : List Char := trimEnd (trimStart l)

/-- `normalize_joke` from `tools/deduplicate_jokes.py`: lowercase, strip,
replace every character other than word characters, whitespace and apostrophes
by a space, collapse whitespace runs, strip. -/
def normalize_joke (s : String) : String :=
  String.mk (stripStep (collapseStep (replaceStep (stripStep (lowerStep s.data)))))

/-- `JokesAuditor._normalize_joke` from `tools/audit_jokes.py`: identical to
`normalize_joke` except that it does not strip before the substitutions. -/
def auditNormalizeJoke (s : String) : String :=
  String.mk (stripStep (collapseStep (replaceStep (lowerStep s.data))))

/-! ### Substring search (Python `in` on strings, and literal `re.search`) -/

/-- Whether `pat` occurs as a contiguous sublist of `hay` (Python `pat in hay`
for strings, which is also the semantics of `re.search` for a pattern without
regex metacharacters). -/
def containsSub (hay pat : List Char) : Bool :=
  pat.isPrefixOf hay ||
    match hay with
    | [] => false
    | _ :: t => containsSub t pat

/-- Python `sub in s` on strings. -/
def pyContains (s sub : String) : Bool := containsSub s.data sub.data

/-- Python `s.count(c)` for a single character. -/
def countChar (s : String) (c : Char) : Nat := s.data.count c

/-- Python `str.lower()` on a whole string (ASCII). -/
def pyLowerStr (s : String) : String := String.mk (lowerStep s.data)

/-! ### A small regex language

Just enough to translate the patterns appearing in the rating tools:
literals, `.` (any character except newline), the classes `[a-z]`, `\w`, `\s`
and small explicit classes, with `+` and `*` over single atoms, and optional
`^` / `$` anchoring.  `re.IGNORECASE` patterns are encoded with lowercase
literals and matched against the lowercased subject, which is equivalent on
the ASCII subjects produced by `str.lower()`. -/

inductive RAtom : Type
  | dot : RAtom
  | lit : Char → RAtom
  | lowAZ : RAtom
  | wordC : RAtom
  | spaceC : RAtom
  | anyOf : List Char → RAtom
deriving Repr, DecidableEq

/-- A regex token: a single atom, or an atom under `*` or `+`. -/
inductive RTok : Type
  | one : RAtom → RTok
  | star : RAtom → RTok
  | plus : RAtom → RTok
deriving Repr, DecidableEq

/-- Does atom `a` match character `c`? -/
def matchRAtom : RAtom → Char → Bool
  | .dot, c => c ≠ '\n'
  | .lit c0, c => c = c0
  | .lowAZ, c => isLowerAZ c
  | .wordC, c => isWordChar c
  | .spaceC, c => isPySpace c
  | .anyOf cs, c => cs.contains c

/-- Termination measure: `plus` weighs more than `one` plus `star`. -/
def toksWeight : List RTok → Nat
  | [] => 0
  | .one _ :: rest => 1 + toksWeight rest
  | .star _ :: rest => 1 + toksWeight rest
  | .plus _ :: rest => 3 + toksWeight rest

/-- Backtracking matcher worker, structurally recursive on a fuel argument so
that it evaluates by kernel reduction.  Every recursive call strictly
decreases the measure `(s.length + 1) * (toksWeight toks + 1)` (a character is
consumed, or the token weight shrinks at the same string), so with that
measure as initial fuel the `0` case is never reached. -/
def matchToksFuel (ae : Bool) : Nat → List RTok → List Char → Bool
  | 0, _, _ => false
  | _ + 1, [], s => !ae || s.isEmpty
  | _ + 1, .one _ :: _, [] => false
  | fuel + 1, .one a :: rest, c :: cs => matchRAtom a c && matchToksFuel ae fuel rest cs
  | fuel + 1, .plus a :: rest, s => matchToksFuel ae fuel (.one a :: .star a :: rest) s
  | fuel + 1, .star _ :: rest, [] => matchToksFuel ae fuel rest []
  | fuel + 1, .star a :: rest, c :: cs =>
      matchToksFuel ae fuel rest (c :: cs)
        || (matchRAtom a c && matchToksFuel ae fuel (.star a :: rest) cs)

/-- Can `toks` match a prefix of `s` (the whole of `s` when `ae` is set,
mirroring a `$` anchor)? -/
def matchToks (ae : Bool) (toks : List RTok) (s : List Char) : Bool :=
  matchToksFuel ae ((s.length + 1) * (toksWeight toks + 1)) toks s

/-- Try `matchToks` at every start position (an unanchored `re.search`). -/
def searchToks (ae : Bool) (toks : List RTok) : List Char → Bool
  | [] => matchToks ae toks []
  | c :: cs => matchToks ae toks (c :: cs) || searchToks ae toks cs

/-- A whole pattern: optional `^` anchor, token list, optional `$` anchor. -/
structure RPat where
  anchorStart : Bool
  toks : List RTok
  anchorEnd : Bool
deriving Repr, DecidableEq

/-- `re.search(pat, s)` (as a boolean). -/
def reSearch (p : RPat) (s : List Char) : Bool :=
  if p.anchorStart then matchToks p.anchorEnd p.toks s
  else searchToks p.anchorEnd p.toks s

/-- A sequence of literal tokens, one per character of `s`. -/
def lits (s : String) : List RTok := s.data.map (fun c => RTok.one (RAtom.lit c))

/-- `.+` -/
def dotPlus : RTok := .plus .dot

/-- `.*` -/
def dotStar : RTok := .star .dot

/-! ### `re.findall` match counts for the pun-counting patterns

Each counter is a left-to-right scan equivalent to Python's non-overlapping
`len(re.findall(...))` for its fixed pattern.  A `prevWord` flag carries the
word-character status of the previous position for `\b` word boundaries. -/

/-- `dropWhile` never lengthens a list (used for termination). -/
theorem dropWhile_len_le (p : Char → Bool) (l : List Char) :
    (l.dropWhile p).length ≤ l.length := by
  induction l with
  | nil => simp [List.dropWhile]
  | cons c cs ih =>
    by_cases h : p c
    · simp [List.dropWhile, h]; omega
    · simp [List.dropWhile, h]

/-- Number of matches of `\b[a-z]+-[a-z]+\b` (hyphenated puns in
`count_actual_puns`).  Structurally recursive on a fuel argument (every
recursive call strictly shortens the list, so `l.length + 1` fuel suffices
and the `0` case is never reached). -/
def countHyphFuel : Nat → Bool → List Char → Nat
  | 0, _, _ => 0
  | _ + 1, _, [] => 0
  | fuel + 1, prevWord, c :: cs =>
    if !prevWord && isLowerAZ c then
      match cs.dropWhile isLowerAZ with
      | '-' :: d :: ds =>
        if isLowerAZ d then
          match (ds.dropWhile isLowerAZ).head? with
          | some x =>
            if isWordChar x then countHyphFuel fuel true cs
            else 1 + countHyphFuel fuel true (ds.dropWhile isLowerAZ)
          | none => 1 + countHyphFuel fuel true (ds.dropWhile isLowerAZ)
        else countHyphFuel fuel true cs
      | _ => countHyphFuel fuel true cs
    else countHyphFuel fuel (isWordChar c) cs

def countHyph (prevWord : Bool) (l : List Char) : Nat :=
  countHyphFuel (l.length + 1) prevWord l

/-- Number of matches of `\w+-\w+` (hyphenated puns in the original
`count_puns`), with the same fuel scheme. -/
def countWFuel : Nat → List Char → Nat
  | 0, _ => 0
  | _ + 1, [] => 0
  | fuel + 1, c :: cs =>
    if isWordChar c then
      match cs.dropWhile isWordChar with
      | '-' :: d :: ds =>
        if isWordChar d then 1 + countWFuel fuel (ds.dropWhile isWordChar)
        else countWFuel fuel (d :: ds)
      | rest1 => countWFuel fuel rest1
    else countWFuel fuel cs

def countW (l : List Char) : Nat := countWFuel (l.length + 1) l

/-- Does the run `R` end in the literal `ing`? -/
def ingSuffix (R : List Char) : Bool := ['i', 'n', 'g'].isSuffixOf R

/-- Number of matches of `\b\w*-\w*ing\b` (the `-ing` puns in the original
`count_puns`), with the same fuel scheme. -/
def countIngFuel : Nat → Bool → List Char → Nat
  | 0, _, _ => 0
  | _ + 1, _, [] => 0
  | fuel + 1, prevWord, c :: cs =>
    if c = '-' && prevWord then
      if ingSuffix (cs.takeWhile isWordChar) then
        1 + countIngFuel fuel true (cs.dropWhile isWordChar)
      else countIngFuel fuel false cs
    else if isWordChar c && !prevWord then
      match cs.dropWhile isWordChar with
      | '-' :: cs2 =>
        if ingSuffix (cs2.takeWhile isWordChar) then
          1 + countIngFuel fuel true (cs2.dropWhile isWordChar)
        else countIngFuel fuel true cs
      | _ => countIngFuel fuel true cs
    else countIngFuel fuel (isWordChar c) cs

def countIng (prevWord : Bool) (l : List Char) : Nat :=
  countIngFuel (l.length + 1) prevWord l

/-- Number of matches of `\b\w+\s+\w+\b` (the "sound-alike" pattern in the
original `count_puns`), with the same fuel scheme. -/
def countPairsFuel : Nat → Bool → List Char → Nat
  | 0, _, _ => 0
  | _ + 1, _, [] => 0
  | fuel + 1, prevWord, c :: cs =>
    if isWordChar c && !prevWord then
      match cs.dropWhile isWordChar with
      | [] => 0
      | s :: r1 =>
        if isPySpace s then
          match r1.dropWhile isPySpace with
          | [] => 0
          | d :: r2 =>
            if isWordChar d then 1 + countPairsFuel fuel true (r2.dropWhile isWordChar)
            else countPairsFuel fuel true (s :: r1)
        else countPairsFuel fuel true (s :: r1)
    else countPairsFuel fuel (isWordChar c) cs

def countPairs (prevWord : Bool) (l : List Char) : Nat :=
  countPairsFuel (l.length + 1) prevWord l

/-! ### Content validation (`validate_content` in both raters) -/

def max_length : Nat := 180

def min_length : Nat := 10

def forbidden_words : List String :=
  ["damn", "hell", "crap", "stupid", "idiot", "dumb",
   "trump", "biden", "democrat", "republican", "politics",
   "religion", "god", "jesus", "muslim", "christian", "gay", "lesbian"]

/-- Explanation markers of `JokeRater` (`rate_jokes_original.py`), which still
lists `because`. -/
def explanation_markers_original : List String :=
  ["get it", "because", "you see", "meaning", "translation",
   "in other words", "that is", "just kidding", "lol", "haha"]

/-- Explanation markers of `ImprovedJokeRater`, with `because` removed. -/
def explanation_markers_improved : List String :=
  ["get it", "you see", "meaning", "translation",
   "in other words", "that is", "just kidding", "lol", "haha"]

/-- The unicode punctuation allowed besides ASCII by the validation regex
`^[\x00-\x7F–—‘’“”…]*$`. -/
def allowedUnicode : List Char :=
  [Char.ofNat 0x2013, Char.ofNat 0x2014, Char.ofNat 0x2018, Char.ofNat 0x2019,
   Char.ofNat 0x201C, Char.ofNat 0x201D, Char.ofNat 0x2026]

def isAsciiByte (c : Char) : Bool := c.toNat ≤ 127

def allowedCharV (c : Char) : Bool := isAsciiByte c || allowedUnicode.contains c

/-- The character-set issue fires when `joke.encode('ascii')` fails and the
allow-list regex does not match either. -/
def asciiIssue (joke : String) : Bool :=
  !(joke.data.all isAsciiByte) && !(joke.data.all allowedCharV)

def tooLongMsg (n : Nat) : String :=
  "Too long: " ++ Nat.repr n ++ " chars (max " ++ Nat.repr max_length ++ ")"

def tooShortMsg (n : Nat) : String :=
  "Too short: " ++ Nat.repr n ++ " chars (min " ++ Nat.repr min_length ++ ")"

/-- `validate_content`, parameterized by the explanation-marker list (the only
difference between the original and improved raters). Issues are collected in
source order; the boolean is `len(issues) == 0`. -/
def validateWith (markers : List String) (joke : String) : Bool × List String :=
  let lower := pyLowerStr joke
  let issues :=
    (if max_length < joke.length then [tooLongMsg joke.length] else [])
    ++ (if joke.length < min_length then [tooShortMsg joke.length] else [])
    ++ (if stripStep joke.data = [] then ["Empty joke"] else [])
    ++ (forbidden_words.filter (fun w => pyContains lower w)).map
        (fun w => "Contains forbidden word: " ++ w)
    ++ (markers.filter (fun m => pyContains lower m)).map
        (fun m => "Contains explanation: " ++ m)
    ++ (if asciiIssue joke then ["Contains non-ASCII characters"] else [])
  (issues.isEmpty, issues)

/-- `JokeRater.validate_content` (`rate_jokes_original.py`). -/
def validate_content (joke : String) : Bool × List String :=
  validateWith explanation_markers_original joke

/-- `ImprovedJokeRater.validate_content` (`rate_jokes_improved_backup.py`). -/
def validate_content_improved (joke : String) : Bool × List String :=
  validateWith explanation_markers_improved joke

/-! ### Pun counting -/

def pun_words : List String :=
  ["moo", "paws", "tail", "purr", "fur", "bear", "bee", "sea", "see"]

/-- `JokeRater.count_puns`: the three `re.findall` pattern counts on the raw
joke plus one per pun word contained in the lowercased joke, capped at 5. -/
def count_puns (joke : String) : Nat :=
  let c1 := countW joke.data + countIng false joke.data + countPairs false joke.data
  let lower := pyLowerStr joke
  let c2 := (pun_words.filter (fun w => pyContains lower w)).length
  min (c1 + c2) 5

def sound_alikes : List String :=
  ["impasta", "gummy", "ground beef", "can" ++ aposS ++ "t opener",
   "outstanding", "make up", "auto-tuna"]

/-- The `animal_puns` list of `ImprovedJokeRater.count_actual_puns`.  In the
source these are non-raw Python strings, so `\b` denotes the backspace control
character `\x08`, not a regex word boundary; `re.search` on such a pattern is
a literal substring search. -/
def animal_puns : List String :=
  ["\x08moo\x08", "\x08paws\x08", "\x08fur\x08", "\x08tail\x08", "\x08purr\x08",
   "udderly", "dairy", "\x08beef\x08"]

def wordplay_phrases : List String :=
  ["grew on me", "lost interest", "time flies", "crack up",
   "turned around", "make up everything"]

/-- How many `animal_puns` entries `re.search` finds in the lowercased joke. -/
def animalPunMatchCount (lower : String) : Nat :=
  (animal_puns.filter (fun p => pyContains lower p)).length

/-- `ImprovedJokeRater.count_actual_puns`. -/
def count_actual_puns (joke : String) : Nat :=
  let lower := pyLowerStr joke
  let hyph := countHyph false lower.data
  let sound := (sound_alikes.filter (fun p => pyContains lower p)).length
  let animal := animalPunMatchCount lower
  let animalAdd : Nat := if 2 < animal then 2 else if 0 < animal then 1 else 0
  let wp := (wordplay_phrases.filter (fun p => pyContains lower p)).length
  min (hyph * 2 + sound + animalAdd + wp) 5

/-! ### Joke structure (`analyze_joke_structure`) -/

/-- One alternative of `^(What|Why|How|Where|When).+\?.+` (case sensitive,
`re.match`, hence start-anchored). -/
def qaPrefixPat (w : String) : RPat :=
  ⟨true, lits w ++ [dotPlus, .one (.lit '?'), dotPlus], false⟩

def is_qa_format (joke : String) : Bool :=
  ["What", "Why", "How", "Where", "When"].any (fun w => reSearch (qaPrefixPat w) joke.data)

/-- `^.+\?.+[!.]$` -/
def setupPunchlinePat : RPat :=
  ⟨true, [dotPlus, .one (.lit '?'), dotPlus, .one (.anyOf ['!', '.'])], true⟩

structure JokeStructure where
  has_question : Bool
  question_count : Nat
  exclamation_count : Nat
  is_qa : Bool
  setup_punchline : Bool
  length_category : String
deriving Repr, DecidableEq

/-- `ImprovedJokeRater.analyze_joke_structure`. -/
def analyze_joke_structure (joke : String) : JokeStructure :=
  ⟨pyContains joke "?", countChar joke '?', countChar joke '!',
   is_qa_format joke, reSearch setupPunchlinePat joke.data,
   if joke.length < 60 then "short" else if joke.length < 120 then "medium" else "long"⟩

/-! ### Score vectors and arg-max level selection -/

/-- The per-level score dictionary `{1: _, 2: _, 3: _, 4: _, 5: _}`. -/
structure Scores where
  s1 : Int
  s2 : Int
  s3 : Int
  s4 : Int
  s5 : Int
deriving Repr, DecidableEq

def Scores.get (sc : Scores) : Nat → Int
  | 1 => sc.s1
  | 2 => sc.s2
  | 3 => sc.s3
  | 4 => sc.s4
  | 5 => sc.s5
  | _ => 0

def Scores.add (a b : Scores) : Scores :=
  ⟨a.s1 + b.s1, a.s2 + b.s2, a.s3 + b.s3, a.s4 + b.s4, a.s5 + b.s5⟩

def Scores.total (sc : Scores) : Int := sc.s1 + sc.s2 + sc.s3 + sc.s4 + sc.s5

def Scores.zero : Scores := ⟨0, 0, 0, 0, 0⟩

/-- Python `max(scores, key=scores.get)` over the insertion-ordered keys
`1..5`: the current best is replaced only on a strictly greater score, so the
lowest-numbered level wins ties. -/
def argmaxLevel (f : Nat → Int) : Nat :=
  List.foldl (fun best l => if f best < f l then l else best) 1 [2, 3, 4, 5]

/-! ### The improved classifier (`ImprovedJokeRater.rate_corniness_improved`) -/

/-- One entry of `ImprovedJokeRater.level_patterns`. -/
structure LevelProfile where
  setup_patterns : List RPat
  pun_indicators : List String
  question_formats : List String
  corniness_markers : List String
  len_lo : Nat
  len_hi : Nat
  base_score : Int

def profile1 : LevelProfile :=
  { setup_patterns :=
      [⟨true, lits "i used to " ++ [dotPlus] ++ lits ", but " ++ [dotPlus], false⟩,
       ⟨true, lits "time flies like " ++ [dotPlus] ++ lits ". " ++ [dotPlus]
          ++ lits " flies like " ++ [dotPlus], false⟩,
       ⟨true, lits "i invented " ++ [dotPlus], false⟩,
       ⟨true, lits "the early bird " ++ [dotPlus] ++ lits ", but " ++ [dotPlus], false⟩,
       ⟨true, [dotPlus] ++ lits " used to " ++ [dotPlus] ++ lits ", but " ++ [dotPlus], false⟩],
    pun_indicators := ["grew on", "lost interest", "time flies", "invented"],
    question_formats := [],
    corniness_markers := [],
    len_lo := 20, len_hi := 80, base_score := 5 }

def profile2 : LevelProfile :=
  { setup_patterns :=
      [⟨true, lits ("why don" ++ aposS ++ "t ") ++ [dotPlus] ++ lits "? " ++ [dotPlus], false⟩,
       ⟨true, lits "what do you call " ++ [dotPlus] ++ lits "? " ++ [dotPlus], false⟩,
       ⟨true, lits "how do you " ++ [dotPlus] ++ lits "? " ++ [dotPlus], false⟩,
       ⟨true, lits "where do " ++ [dotPlus] ++ lits " go? " ++ [dotPlus], false⟩,
       ⟨true, lits "why did " ++ [dotPlus] ++ lits "? " ++ [dotPlus], false⟩],
    pun_indicators := ["make up everything", "impasta", "outstanding"],
    question_formats :=
      ["Why don" ++ aposS ++ "t", "What do you call", "How do", "Where do", "Why did"],
    corniness_markers := ["pun", "play on words"],
    len_lo := 40, len_hi := 100, base_score := 10 }

def profile3 : LevelProfile :=
  { setup_patterns :=
      [⟨true, lits "what do you call a " ++ [dotPlus] ++ lits " with no "
          ++ [dotPlus, .one (.lit '?')], false⟩,
       ⟨true, lits "what do you call " ++ [dotPlus] ++ lits "? " ++ [dotPlus]
          ++ lits "bear!", true⟩,
       ⟨true, lits "what do you call " ++ [dotPlus] ++ lits "? " ++ [dotPlus]
          ++ lits "beef!", true⟩,
       ⟨true, lits ("why don" ++ aposS ++ "t ") ++ [dotPlus] ++ lits " tell "
          ++ [dotPlus, .one (.lit '?')], false⟩,
       ⟨true, lits "what do you call " ++ [dotPlus] ++ lits "opener" ++ [dotPlus]
          ++ lits "? " ++ [dotPlus] ++ lits ("can" ++ aposS ++ "t opener"), false⟩],
    pun_indicators :=
      ["gummy bear", "ground beef", "can" ++ aposS ++ "t opener", "crack up"],
    question_formats := ["What do you call"],
    corniness_markers := ["obvious pun", "-ly", "bear", "beef", "crack"],
    len_lo := 45, len_hi := 90, base_score := 20 }

def profile4 : LevelProfile :=
  { setup_patterns :=
      [⟨false, [dotStar] ++ lits "auto-tuna" ++ [dotStar], false⟩,
       ⟨false, [dotStar] ++ lits "turned myself around" ++ [dotStar], false⟩,
       ⟨false, [dotStar] ++ lits "addicted" ++ [dotStar] ++ lits "hokey pokey" ++ [dotStar], false⟩,
       ⟨false, [dotStar, .plus .lowAZ, .one (.lit '-'), .plus .lowAZ, dotStar], false⟩],
    pun_indicators := ["auto-tuna", "turned myself around", "hokey pokey"],
    question_formats := [],
    corniness_markers := ["-tuna", "-ing", "addicted", "turned around"],
    len_lo := 60, len_hi := 140, base_score := 30 }

def profile5 : LevelProfile :=
  { setup_patterns :=
      [⟨false, [dotStar, .plus .lowAZ, .one (.lit '-'), .plus .lowAZ, dotStar,
                .plus .lowAZ, .one (.lit '-'), .plus .lowAZ, dotStar], false⟩,
       ⟨false, [dotStar] ++ lits "paws" ++ [dotStar] ++ lits "fur" ++ [dotStar]
          ++ lits "tail" ++ [dotStar], false⟩,
       ⟨false, [dotStar] ++ lits "moo" ++ [dotStar] ++ lits "udderly" ++ [dotStar]
          ++ lits "dairy" ++ [dotStar], false⟩],
    pun_indicators := ["multiple puns", "excessive wordplay", "stacked puns"],
    question_formats := [],
    corniness_markers := ["multiple puns", "excessive", "stacked"],
    len_lo := 80, len_hi := 180, base_score := 20 }

/-- The per-level loop body of `rate_corniness_improved`: base score, one-shot
setup-pattern bonus (`break` after the first match), 8 per pun indicator,
one-shot question-format bonus, 3 per corniness marker, and the length
preference adjustment. -/
def profileScore (p : LevelProfile) (joke : String) (lower : String) : Int :=
  p.base_score
  + (if p.setup_patterns.any (fun pat => reSearch pat lower.data) then 15 else 0)
  + 8 * ((p.pun_indicators.filter (fun ind => pyContains lower ind)).length : Int)
  + (if p.question_formats.any (fun q => pyContains lower (pyLowerStr q)) then 5 else 0)
  + 3 * ((p.corniness_markers.filter (fun m => pyContains lower m)).length : Int)
  + (if p.len_lo ≤ joke.length ∧ joke.length ≤ p.len_hi then 3
     else if joke.length < p.len_lo then -2
     else if p.len_hi + 20 < joke.length then -1 else 0)

/-- The complete score dictionary computed by `rate_corniness_improved`:
per-level profile scores, the Q&A structural bonus, the pun-density
adjustments, and the specific joke-pattern overrides. -/
def improvedScores (joke : String) : Scores :=
  let lower := pyLowerStr joke
  let base : Scores :=
    ⟨profileScore profile1 joke lower, profileScore profile2 joke lower,
     profileScore profile3 joke lower, profileScore profile4 joke lower,
     profileScore profile5 joke lower⟩
  let qaB : Scores := if is_qa_format joke then ⟨0, 5, 3, 0, 0⟩ else Scores.zero
  let pc := count_actual_puns joke
  let punB : Scores :=
    if pc = 0 then ⟨8, 0, 0, 0, 0⟩
    else if pc = 1 then ⟨0, 5, 3, 0, 0⟩
    else if pc = 2 then ⟨0, 0, 6, 3, 0⟩
    else if 3 ≤ pc then ⟨0, 0, 0, 6, 4⟩
    else Scores.zero
  let ovB : Scores :=
    ⟨0, 0,
     (if pyContains lower ("can" ++ aposS ++ "t opener") then 10 else 0)
       + (if pyContains lower "gummy bear" then 10 else 0)
       + (if pyContains lower "ground beef" then 10 else 0),
     (if pyContains lower "auto-tuna" || pyContains lower "hokey pokey" then 10 else 0),
     0⟩
  ((base.add qaB).add punB).add ovB

/-- The confidence computation of `rate_corniness_improved`:
`max_score / max(total, 1)` (or `0.1` on a non-positive total), boosted by
`×1.2` capped at `1` when the winning score is at least 20. -/
def confOfScores (sc : Scores) : ℚ :=
  let maxScore := sc.get (argmaxLevel sc.get)
  let conf0 : ℚ :=
    if 0 < sc.total then (maxScore : ℚ) / ((max sc.total 1 : Int) : ℚ) else 1 / 10
  if 20 ≤ maxScore then min 1 (conf0 * (6 / 5)) else conf0

/-- `ImprovedJokeRater.rate_corniness_improved`: arg-max level plus its
confidence. -/
def rate_corniness_improved (joke : String) : Nat × ℚ :=
  (argmaxLevel (improvedScores joke).get, confOfScores (improvedScores joke))

/-! ### The original classifier (`JokeRater.rate_corniness`) -/

/-- One entry of `JokeRater.corniness_patterns` (only the fields the code
reads: keywords and regex patterns). -/
structure OrigLevel where
  keywords : List String
  patterns : List RPat

def orig1 : OrigLevel :=
  { keywords := ["used to", "then it", "new word", "invented"],
    patterns :=
      [⟨false, lits "i used to " ++ [dotPlus] ++ lits " but " ++ [dotPlus], false⟩,
       ⟨false, [dotPlus] ++ lits " then " ++ [dotPlus], false⟩] }

def orig2 : OrigLevel :=
  { keywords := ["why did", "what do you call", "how do you"],
    patterns :=
      [⟨false, lits "why did " ++ [dotPlus, .one (.lit '?')], false⟩,
       ⟨false, lits "what do you call " ++ [dotPlus, .one (.lit '?')], false⟩,
       ⟨false, lits "how do you " ++ [dotPlus, .one (.lit '?')], false⟩] }

def orig3 : OrigLevel :=
  { keywords := ["bear", "cow", "fish", "call a", "with no"],
    patterns :=
      [⟨false, lits "what do you call a " ++ [dotPlus] ++ lits " with no "
         ++ [dotPlus, .one (.lit '?')], false⟩,
       ⟨false, lits ("why don" ++ aposS ++ "t ") ++ [dotPlus] ++ lits " tell "
         ++ [dotPlus, .one (.lit '?')], false⟩] }

def orig4 : OrigLevel :=
  { keywords := ["auto-tuna", "moo-sician", "addicted", "turned myself around"],
    patterns :=
      [⟨false, [dotPlus, .one (.lit '-'), .plus .wordC], false⟩,
       ⟨false, [dotPlus] ++ lits " but " ++ [dotPlus] ++ lits " and " ++ [dotPlus], false⟩] }

def orig5 : OrigLevel :=
  { keywords := ["a-mew-sing", "paws for concern", "moo-d", "beef with"],
    patterns :=
      [⟨false, [dotPlus, .one (.lit '-'), .plus .wordC, dotPlus, .one (.lit '-'),
                .plus .wordC], false⟩,
       ⟨false, [dotPlus, .one (.lit '!'), .star .spaceC, dotPlus, .one (.lit '!'),
                .star .spaceC, dotPlus, .one (.lit '!')], false⟩] }

/-- Per-level base: 2 per keyword found in the lowercased joke, 3 per pattern
that `re.search` finds (case-insensitive, hence matched on the lowered text). -/
def origLevelScore (ol : OrigLevel) (lower : String) : Int :=
  2 * ((ol.keywords.filter (fun kw => pyContains lower kw)).length : Int)
  + 3 * ((ol.patterns.filter (fun pat => reSearch pat lower.data)).length : Int)

/-- The score dictionary computed by `JokeRater.rate_corniness`. -/
def originalScores (joke : String) : Scores :=
  let lower := pyLowerStr joke
  let base : Scores :=
    ⟨origLevelScore orig1 lower, origLevelScore orig2 lower, origLevelScore orig3 lower,
     origLevelScore orig4 lower, origLevelScore orig5 lower⟩
  let lenB : Scores :=
    if joke.length ≤ 60 then ⟨1, 0, 0, 0, 0⟩
    else if joke.length ≤ 100 then ⟨0, 1, 0, 0, 0⟩
    else if joke.length ≤ 140 then ⟨0, 0, 1, 0, 0⟩
    else if joke.length ≤ 170 then ⟨0, 0, 0, 1, 0⟩
    else ⟨0, 0, 0, 0, 2⟩
  let pc := count_puns joke
  let punB : Scores :=
    if pc = 0 then ⟨2, 0, 0, 0, 0⟩
    else if pc = 1 then ⟨0, 2, 0, 0, 0⟩
    else if pc = 2 then ⟨0, 0, 2, 0, 0⟩
    else if 3 ≤ pc then ⟨0, 0, 0, 1, 1⟩
    else Scores.zero
  let qB : Scores := if 1 ≤ countChar joke '?' then ⟨0, 1, 1, 0, 0⟩ else Scores.zero
  let q2B : Scores :=
    if 2 ≤ countChar joke '?' || 2 ≤ countChar joke '!' then ⟨0, 0, 0, 1, 1⟩ else Scores.zero
  (((base.add lenB).add punB).add qB).add q2B

/-- The confidence computation of `rate_corniness`: `max_score / max(total, 1)`. -/
def confOrig (sc : Scores) : ℚ :=
  (sc.get (argmaxLevel sc.get) : ℚ) / ((max sc.total 1 : Int) : ℚ)

/-- `JokeRater.rate_corniness`. -/
def rate_corniness (joke : String) : Nat × ℚ :=
  (argmaxLevel (originalScores joke).get, confOrig (originalScores joke))

/-! ### The corpus and `AutoReclassifier.apply_reclassification`
(`tools/auto_reclassify.py`)

The JSON corpus object is an association list from string level keys to lists
of joke strings; `dictGet?` and `dictSet` give the first-key-wins semantics of
a JSON object (whose keys are unique, a `Nodup` hypothesis where needed). -/

/-- The jokes corpus: `{"1": [...], ..., "5": [...]}`. -/
abbrev Corpus := List (String × List String)

/-- Python `d[k]` lookup (`none` when the key is absent). -/
def dictGet? (d : Corpus) (k : String) : Option (List String) :=
  match d with
  | [] => none
  | (k0, v0) :: rest => if k0 = k then some v0 else dictGet? rest k

/-- Python `d[k] = v`: replace the value of an existing key, else append the
new key (dict insertion order). -/
def dictSet (d : Corpus) (k : String) (v : List String) : Corpus :=
  match d with
  | [] => [(k, v)]
  | (k0, v0) :: rest => if k0 = k then (k, v) :: rest else (k0, v0) :: dictSet rest k v

/-- Total number of jokes in the corpus (sum of the per-level list lengths). -/
def totalJokes (d : Corpus) : Nat := (d.map (fun p => p.2.length)).sum

/-- A reclassification candidate as built by
`analyze_reclassification_candidates` (the fields `apply_reclassification`
reads). -/
structure Candidate where
  joke : String
  from_level : Nat
  to_level : Nat
  confidence : ℚ
deriving Repr, DecidableEq

/-- The confidence-tiered reclassification plan. -/
structure Plan where
  high_confidence : List Candidate
  medium_confidence : List Candidate
  low_confidence : List Candidate
  already_correct : List Candidate
deriving Repr, DecidableEq

/-- The `candidates_to_move` list of `apply_reclassification`: the whole high
tier, plus the medium-tier candidates with `confidence >= min_confidence`. -/
def selectedMoves (plan : Plan) (minConf : ℚ) : List Candidate :=
  plan.high_confidence
    ++ plan.medium_confidence.filter (fun c => minConf ≤ c.confidence)

/-- The target half of one move: `if to_level not in jokes_data:
jokes_data[to_level] = []` followed by `jokes_data[to_level].append(joke)`.
In the key-absent branch the freshly created value is the empty list, so the
append reads `[]`. -/
def moveTarget (d1 : Corpus) (toK joke : String) : Corpus :=
  match dictGet? d1 toK with
  | some w => dictSet d1 toK (w ++ [joke])
  | none => dictSet (dictSet d1 toK []) toK ([] ++ [joke])

/-- One iteration of the move loop: if the joke is currently present in its
claimed source level, remove its first occurrence there and append it to the
target level (creating the target key when absent); otherwise do nothing.
Returns the updated corpus and whether the move was applied. -/
def moveStep (corpus : Corpus) (c : Candidate) : Corpus × Bool :=
  match dictGet? corpus (Nat.repr c.from_level) with
  | some lst =>
    if c.joke ∈ lst then
      (moveTarget (dictSet corpus (Nat.repr c.from_level) (lst.erase c.joke))
        (Nat.repr c.to_level) c.joke, true)
    else (corpus, false)
  | none => (corpus, false)

/-- Python `defaultdict(int)` increment `d[k] += 1`. -/
def dictIncr (d : List (String × Nat)) (k : String) : List (String × Nat) :=
  match d with
  | [] => [(k, 1)]
  | (k0, n) :: rest => if k0 = k then (k0, n + 1) :: rest else (k0, n) :: dictIncr rest k

/-- The non-dry-run core of `AutoReclassifier.apply_reclassification`: fold the
selected moves over the corpus, counting applied moves and tallying
`moves_by_pattern`.  The returned triple mirrors the mutated corpus plus the
result dict `{'moves_applied': ..., 'patterns': ...}` — the result carries no
count of skipped moves. -/
def applyStep (acc : Corpus × Nat × List (String × Nat)) (cand : Candidate) :
    Corpus × Nat × List (String × Nat) :=
  if (moveStep acc.1 cand).2 then
    ((moveStep acc.1 cand).1, acc.2.1 + 1,
     dictIncr acc.2.2 (Nat.repr cand.from_level ++ "->" ++ Nat.repr cand.to_level))
  else ((moveStep acc.1 cand).1, acc.2.1, acc.2.2)

def apply_reclassification (plan : Plan) (minConf : ℚ) (corpus : Corpus) :
    Corpus × Nat × List (String × Nat) :=
  (selectedMoves plan minConf).foldl applyStep (corpus, 0, [])

/-! ### Duplicate detection (`tools/audit_jokes.py`, `tools/deduplicate_jokes.py`)

The fuzzy similarity `rapidfuzz.fuzz.token_set_ratio` is an external library
function; it is kept as a parameter `simFn`, with the hypothesis (its
documented behaviour) that identical inputs score 100. -/

/-- One collected corpus entry of `JokesAuditor.detect_duplicates`. -/
structure JokeEntry where
  level : String
  idx : Nat
  text : String
  norm : String
deriving Repr, DecidableEq

/-- The flattened `all_jokes` list, in corpus iteration order. -/
def allJokes (corpus : Corpus) : List JokeEntry :=
  corpus.flatMap (fun p => p.2.enum.map (fun iv => ⟨p.1, iv.1, iv.2, auditNormalizeJoke iv.2⟩))

/-- All index pairs `i < j`, in the double-loop order of `detect_duplicates`. -/
def pairsOf {α : Type} : List α → List (α × α)
  | [] => []
  | x :: xs => xs.map (fun y => (x, y)) ++ pairsOf xs

/-- A reported duplicate pair. -/
structure DupCand where
  similarity : ℚ
  joke1 : JokeEntry
  joke2 : JokeEntry
deriving DecidableEq

/-- `JokesAuditor.detect_duplicates`: every pair (each once, first-by-index
first) whose similarity on normalized text reaches the threshold
(`self.duplicate_threshold`, configured to 85). -/
def detect_duplicates (simFn : String → String → ℚ) (threshold : ℚ) (corpus : Corpus) :
    List DupCand :=
  (pairsOf (allJokes corpus)).filterMap (fun pr =>
    if threshold ≤ simFn pr.1.norm pr.2.norm
    then some ⟨simFn pr.1.norm pr.2.norm, pr.1, pr.2⟩ else none)

/-- `are_duplicates` from `tools/deduplicate_jokes.py`: exact normalized match
short-circuits to true regardless of the threshold, else fuzzy compare. -/
def are_duplicates (simFn : String → String → ℚ) (joke1 joke2 : String)
    (threshold : ℚ) : Bool :=
  let n1 := normalize_joke joke1
  let n2 := normalize_joke joke2
  if n1 = n2 then true
  else decide (threshold ≤ simFn n1 n2)

/-! ### Auxiliary predicates and concrete inputs used by the statements -/

/-- No two adjacent whitespace characters. -/
def noDoubleSpace : List Char → Bool
  | [] => true
  | [_] => true
  | a :: b :: rest => (!(isPySpace a && isPySpace b)) && noDoubleSpace (b :: rest)

/-- The first character, if any, is not whitespace. -/
def headNotSpace : List Char → Bool
  | [] => true
  | c :: _ => !isPySpace c

/-- The last character, if any, is not whitespace. -/
def lastNotSpace : List Char → Bool
  | [] => true
  | [c] => !isPySpace c
  | _ :: c :: cs => lastNotSpace (c :: cs)

/-- Does the reported pair `d` consist of the entries `e1` and `e2` (in either
order)? -/
def samePairB (e1 e2 : JokeEntry) (d : DupCand) : Bool :=
  (decide (d.joke1 = e1) && decide (d.joke2 = e2))
    || (decide (d.joke1 = e2) && decide (d.joke2 = e1))

/-- Concrete-scenario joke of the spec: Q&A format, one pun phrase. -/
def scenarioJoke : String :=
  "Why don" ++ aposS ++ "t scientists trust atoms? Because they make up everything!"

/-- A 200-character string for the length-validation scenario. -/
def longJoke : String := String.mk (List.replicate 200 'a')

/-- A one-joke corpus used in the reclassification scenarios. -/
def corpusJ : Corpus := [("1", ["J"])]

/-- Plan holding a single high-confidence candidate at confidence 0.6. -/
def planHigh06 : Plan := ⟨[⟨"J", 1, 2, 3 / 5⟩], [], [], []⟩

/-- Plan holding a single medium-confidence candidate at confidence 0.5. -/
def planMedium05 : Plan := ⟨[], [⟨"J", 1, 2, 1 / 2⟩], [], []⟩

/-- Plan with one stale high-confidence candidate (joke absent from corpus). -/
def planStale1 : Plan := ⟨[⟨"X", 1, 2, 9 / 10⟩], [], [], []⟩

/-- Plan with two stale high-confidence candidates. -/
def planStale2 : Plan := ⟨[⟨"X", 1, 2, 9 / 10⟩, ⟨"Y", 1, 2, 9 / 10⟩], [], [], []⟩

/-- The two-level one-joke-each duplicate corpus of concrete scenario 4. -/
def dupCorpus : Corpus := [("1", ["Joke A"]), ("2", ["Joke A"])]

/-- Its two flattened entries. -/
def dupEntry1 : JokeEntry := ⟨"1", 0, "Joke A", auditNormalizeJoke "Joke A"⟩

def dupEntry2 : JokeEntry := ⟨"2", 0, "Joke A", auditNormalizeJoke "Joke A"⟩

/-- A trivial similarity function scoring identical strings 100 — a witness
instance for the `rapidfuzz` parameter. -/
def eqSim : String → String → ℚ := fun a b => if a = b then 100 else 0

/-! ## Lemma layer

### Character facts for normalization -/

theorem charOfNat_toNat (n : Nat) (h : n < 55296) : (Char.ofNat n).toNat = n := by
  unfold Char.ofNat
  split
  · simp [Char.ofNatAux, Char.toNat, UInt32.toNat, BitVec.toNat_ofNatLt]
  · rename_i hv
    exact absurd (Or.inl (by omega)) hv

theorem pyLower_eq_self (c : Char) (h : ¬(65 ≤ c.toNat && c.toNat ≤ 90) = true) :
    pyLower c = c := by
  unfold pyLower
  rw [if_neg h]

theorem pyLower_toNat_of_upper (c : Char) (h : (65 ≤ c.toNat && c.toNat ≤ 90) = true) :
    (pyLower c).toNat = c.toNat + 32 := by
  unfold pyLower
  rw [if_pos h]
  simp only [Bool.and_eq_true, decide_eq_true_eq] at h
  exact charOfNat_toNat _ (by omega)

theorem pyLower_idem (c : Char) : pyLower (pyLower c) = pyLower c := by
  by_cases h : (65 ≤ c.toNat && c.toNat ≤ 90) = true
  · apply pyLower_eq_self
    have h2 := pyLower_toNat_of_upper c h
    simp only [Bool.and_eq_true, decide_eq_true_eq] at h ⊢
    omega
  · rw [pyLower_eq_self c h]
    exact pyLower_eq_self c h

theorem pyLower_space : pyLower ' ' = ' ' := by decide

theorem keepChar_space : keepChar ' ' = true := by decide

/-! ### Stage lemmas for the normalizer -/

theorem map_id_of_fixed {f : Char → Char} {l : List Char} (h : ∀ c ∈ l, f c = c) :
    l.map f = l := by
  induction l with
  | nil => rfl
  | cons c cs ih =>
    simp only [List.map_cons, List.cons.injEq]
    exact ⟨h c (by simp), ih (fun d hd => h d (by simp [hd]))⟩

theorem lowerStep_fixed (l : List Char) : ∀ c ∈ lowerStep l, pyLower c = c := by
  intro c hc
  rcases List.mem_map.mp hc with ⟨d, _, rfl⟩
  exact pyLower_idem d

theorem replaceStep_keep (l : List Char) : ∀ c ∈ replaceStep l, keepChar c = true := by
  intro c hc
  rcases List.mem_map.mp hc with ⟨d, _, rfl⟩
  by_cases hk : keepChar d = true
  · simp [hk]
  · simp [hk, keepChar_space]

theorem replaceStep_pred {P : Char → Prop} (hsp : P ' ') {l : List Char}
    (h : ∀ c ∈ l, P c) : ∀ c ∈ replaceStep l, P c := by
  intro c hc
  rcases List.mem_map.mp hc with ⟨d, hd, rfl⟩
  by_cases hk : keepChar d = true
  · simpa [hk] using h d hd
  · simpa [hk] using hsp

theorem replaceStep_id {l : List Char} (h : ∀ c ∈ l, keepChar c = true) :
    replaceStep l = l :=
  map_id_of_fixed (fun c hc => by simp [h c hc])

theorem collapseAux_spacesOK (l : List Char) :
    ∀ b, ∀ c ∈ collapseAux b l, isPySpace c = true → c = ' ' := by
  induction l with
  | nil => intro b c hc; simp [collapseAux] at hc
  | cons x xs ih =>
    intro b c hc hsp
    unfold collapseAux at hc
    by_cases hx : isPySpace x = true
    · rw [if_pos hx] at hc
      by_cases hb : b
      · rw [if_pos hb] at hc
        exact ih true c hc hsp
      · rw [if_neg hb] at hc
        rcases List.mem_cons.mp hc with rfl | hc2
        · rfl
        · exact ih true c hc2 hsp
    · rw [if_neg hx] at hc
      rcases List.mem_cons.mp hc with rfl | hc2
      · exact absurd hsp (by simp [hx])
      · exact ih false c hc2 hsp

theorem collapseAux_pred {P : Char → Prop} (hsp : P ' ') {l : List Char}
    (h : ∀ c ∈ l, P c) : ∀ b, ∀ c ∈ collapseAux b l, P c := by
  induction l with
  | nil => intro b c hc; simp [collapseAux] at hc
  | cons x xs ih =>
    intro b c hc
    have hx' : ∀ d ∈ xs, P d := fun d hd => h d (by simp [hd])
    unfold collapseAux at hc
    by_cases hx : isPySpace x = true
    · rw [if_pos hx] at hc
      by_cases hb : b
      · rw [if_pos hb] at hc
        exact ih hx' true c hc
      · rw [if_neg hb] at hc
        rcases List.mem_cons.mp hc with rfl | hc2
        · exact hsp
        · exact ih hx' true c hc2
    · rw [if_neg hx] at hc
      rcases List.mem_cons.mp hc with hce | hc2
      · exact hce ▸ h x (List.mem_cons_self x xs)
      · exact ih hx' false c hc2

theorem collapseAux_true_head (l : List Char) :
    headNotSpace (collapseAux true l) = true := by
  induction l with
  | nil => rfl
  | cons x xs ih =>
    unfold collapseAux
    by_cases hx : isPySpace x = true
    · rw [if_pos hx, if_pos rfl]
      exact ih
    · rw [if_neg hx]
      simp [headNotSpace, hx]

theorem noDoubleSpace_cons (x : Char) (X : List Char)
    (h1 : noDoubleSpace X = true)
    (h2 : isPySpace x = true → headNotSpace X = true) :
    noDoubleSpace (x :: X) = true := by
  cases X with
  | nil => rfl
  | cons y rest =>
    have : (!(isPySpace x && isPySpace y)) = true := by
      by_cases hx : isPySpace x = true
      · have := h2 hx
        simp [headNotSpace] at this
        simp [hx, this]
      · simp [hx]
    simp [noDoubleSpace, this, h1]

theorem noDoubleSpace_collapseAux (l : List Char) :
    ∀ b, noDoubleSpace (collapseAux b l) = true := by
  induction l with
  | nil => intro b; rfl
  | cons x xs ih =>
    intro b
    unfold collapseAux
    by_cases hx : isPySpace x = true
    · rw [if_pos hx]
      by_cases hb : b
      · rw [if_pos hb]; exact ih true
      · rw [if_neg hb]
        exact noDoubleSpace_cons _ _ (ih true) (fun _ => collapseAux_true_head xs)
    · rw [if_neg hx]
      exact noDoubleSpace_cons _ _ (ih false)
        (fun hsp => absurd hsp (by simp [hx]))

theorem noDoubleSpace_tail {x : Char} {X : List Char}
    (h : noDoubleSpace (x :: X) = true) : noDoubleSpace X = true := by
  cases X with
  | nil => rfl
  | cons y rest =>
    simp only [noDoubleSpace, Bool.and_eq_true] at h
    exact h.2

theorem collapseAux_id (l : List Char) :
    ∀ b, (∀ c ∈ l, isPySpace c = true → c = ' ') → noDoubleSpace l = true →
      (b = true → headNotSpace l = true) → collapseAux b l = l := by
  induction l with
  | nil => intro b _ _ _; rfl
  | cons x xs ih =>
    intro b hsp hnd hhd
    unfold collapseAux
    by_cases hx : isPySpace x = true
    · have hb : b = false := by
        cases b
        · rfl
        · have := hhd rfl
          simp [headNotSpace, hx] at this
      subst hb
      rw [if_pos hx, if_neg (by simp)]
      have hx' : x = ' ' := hsp x (by simp) hx
      have hxs : collapseAux true xs = xs := by
        apply ih true (fun c hc h => hsp c (by simp [hc]) h) (noDoubleSpace_tail hnd)
        intro _
        cases xs with
        | nil => rfl
        | cons y rest =>
          have : (!(isPySpace x && isPySpace y)) = true := by
            simp only [noDoubleSpace, Bool.and_eq_true] at hnd
            exact hnd.1
          simp [hx] at this
          simp [headNotSpace, this]
      rw [hxs, hx']
    · rw [if_neg hx]
      rw [ih false (fun c hc h => hsp c (by simp [hc]) h) (noDoubleSpace_tail hnd)
        (by intro h; exact absurd h (by simp))]

/-! ### Trim lemmas -/

theorem mem_of_mem_dropWhile {p : Char → Bool} {l : List Char} {c : Char}
    (h : c ∈ l.dropWhile p) : c ∈ l := by
  have heq := List.takeWhile_append_dropWhile (p := p) (l := l)
  rw [← heq]
  exact List.mem_append_right _ h

theorem trimStart_id {l : List Char} (h : headNotSpace l = true) : trimStart l = l := by
  cases l with
  | nil => rfl
  | cons c cs =>
    simp [headNotSpace] at h
    simp [trimStart, List.dropWhile, h]

theorem headNotSpace_trimStart (l : List Char) : headNotSpace (trimStart l) = true := by
  induction l with
  | nil => rfl
  | cons c cs ih =>
    by_cases hc : isPySpace c = true
    · simpa [trimStart, List.dropWhile, hc] using ih
    · simp [trimStart, List.dropWhile, hc, headNotSpace]

theorem noDoubleSpace_append_right {r s : List Char}
    (h : noDoubleSpace (r ++ s) = true) : noDoubleSpace s = true := by
  induction r with
  | nil => exact h
  | cons x r' ih => exact ih (noDoubleSpace_tail h)

theorem noDoubleSpace_trimStart {l : List Char} (h : noDoubleSpace l = true) :
    noDoubleSpace (trimStart l) = true := by
  apply noDoubleSpace_append_right (r := l.takeWhile isPySpace)
  unfold trimStart
  rw [List.takeWhile_append_dropWhile]
  exact h

theorem trimEnd_cases (c : Char) (cs : List Char) :
    trimEnd (c :: cs) = [] ∨ ∃ t, trimEnd (c :: cs) = c :: t := by
  unfold trimEnd
  cases htc : trimEnd cs with
  | nil =>
    by_cases hc : isPySpace c = true
    · left; simp [hc]
    · right; exact ⟨[], by simp [hc]⟩
  | cons y t => right; exact ⟨y :: t, rfl⟩

theorem mem_of_mem_trimEnd {l : List Char} {c : Char} (h : c ∈ trimEnd l) : c ∈ l := by
  induction l with
  | nil => simp [trimEnd] at h
  | cons x xs ih =>
    unfold trimEnd at h
    cases htc : trimEnd xs with
    | nil =>
      rw [htc] at h
      by_cases hx : isPySpace x = true
      · simp [hx] at h
      · simp [hx] at h
        simp [h]
    | cons y t =>
      rw [htc] at h
      rcases List.mem_cons.mp h with hce | hc2
      · simp [hce]
      · exact List.mem_cons_of_mem x (ih (htc ▸ hc2))

theorem noDoubleSpace_trimEnd {l : List Char} (h : noDoubleSpace l = true) :
    noDoubleSpace (trimEnd l) = true := by
  induction l with
  | nil => rfl
  | cons x xs ih =>
    unfold trimEnd
    cases htc : trimEnd xs with
    | nil =>
      by_cases hx : isPySpace x = true
      · simp [hx]; rfl
      · simp [hx]; rfl
    | cons y t =>
      apply noDoubleSpace_cons
      · rw [← htc]; exact ih (noDoubleSpace_tail h)
      · intro hx
        cases xs with
        | nil => simp [trimEnd] at htc
        | cons z zs =>
          rcases trimEnd_cases z zs with he | ⟨t', ht'⟩
          · rw [he] at htc; exact absurd htc (by simp)
          · rw [ht'] at htc
            have hz : z = y := ((List.cons.injEq _ _ _ _).mp htc).1
            simp only [noDoubleSpace, Bool.and_eq_true] at h
            have h1 := h.1
            simp [hx] at h1
            simp [headNotSpace, ← hz, h1]

theorem lastNotSpace_trimEnd (l : List Char) : lastNotSpace (trimEnd l) = true := by
  induction l with
  | nil => rfl
  | cons x xs ih =>
    unfold trimEnd
    cases htc : trimEnd xs with
    | nil =>
      by_cases hx : isPySpace x = true
      · simp [hx]; rfl
      · simp [hx, lastNotSpace]
    | cons y t =>
      rw [htc] at ih
      cases t with
      | nil => simpa [lastNotSpace] using ih
      | cons u us => simpa [lastNotSpace] using ih

theorem headNotSpace_trimEnd {l : List Char} (h : headNotSpace l = true) :
    headNotSpace (trimEnd l) = true := by
  cases l with
  | nil => rfl
  | cons c cs =>
    rcases trimEnd_cases c cs with he | ⟨t, ht⟩
    · simp [he, headNotSpace]
    · rw [ht]
      simpa [headNotSpace] using h

theorem trimEnd_id {l : List Char} (h : lastNotSpace l = true) : trimEnd l = l := by
  induction l with
  | nil => rfl
  | cons x xs ih =>
    unfold trimEnd
    cases xs with
    | nil =>
      simp [lastNotSpace] at h
      simp [trimEnd, h]
    | cons y ys =>
      have hys : trimEnd (y :: ys) = y :: ys := ih (by simpa [lastNotSpace] using h)
      rw [hys]

/-! ### The strip stage -/

theorem stripStep_id {l : List Char} (h1 : headNotSpace l = true)
    (h2 : lastNotSpace l = true) : stripStep l = l := by
  unfold stripStep
  rw [trimStart_id h1, trimEnd_id h2]

theorem mem_of_mem_stripStep {l : List Char} {c : Char} (h : c ∈ stripStep l) : c ∈ l :=
  mem_of_mem_dropWhile (mem_of_mem_trimEnd h)

theorem noDoubleSpace_stripStep {l : List Char} (h : noDoubleSpace l = true) :
    noDoubleSpace (stripStep l) = true :=
  noDoubleSpace_trimEnd (noDoubleSpace_trimStart h)

theorem headNotSpace_stripStep (l : List Char) : headNotSpace (stripStep l) = true :=
  headNotSpace_trimEnd (headNotSpace_trimStart l)

theorem lastNotSpace_stripStep (l : List Char) : lastNotSpace (stripStep l) = true :=
  lastNotSpace_trimEnd _

/-! ### The normalized output is a fixpoint of every stage -/

/-- The common tail of both normalizers. -/
def normCore (l : List Char) : List Char := stripStep (collapseStep (replaceStep l))

/-- All the structure the second normalization pass needs about the output of
the first. -/
structure NormOut (l : List Char) : Prop where
  lowFixed : ∀ c ∈ l, pyLower c = c
  keepAll : ∀ c ∈ l, keepChar c = true
  spacesOK : ∀ c ∈ l, isPySpace c = true → c = ' '
  noDouble : noDoubleSpace l = true
  headOk : headNotSpace l = true
  lastOk : lastNotSpace l = true

theorem normCore_out {l : List Char} (hlow : ∀ c ∈ l, pyLower c = c) :
    NormOut (normCore l) := by
  have hrep_keep := replaceStep_keep l
  have hrep_low := replaceStep_pred (P := fun c => pyLower c = c) pyLower_space hlow
  refine ⟨?_, ?_, ?_, ?_, ?_, ?_⟩
  · intro c hc
    exact collapseAux_pred (P := fun c => pyLower c = c) pyLower_space hrep_low false c
      (mem_of_mem_stripStep hc)
  · intro c hc
    exact collapseAux_pred (P := fun c => keepChar c = true) keepChar_space hrep_keep false c
      (mem_of_mem_stripStep hc)
  · intro c hc
    exact collapseAux_spacesOK _ false c (mem_of_mem_stripStep hc)
  · exact noDoubleSpace_stripStep (noDoubleSpace_collapseAux _ false)
  · exact headNotSpace_stripStep _
  · exact lastNotSpace_stripStep _

theorem normOut_fixpoint {l : List Char} (h : NormOut l) :
    lowerStep l = l ∧ stripStep l = l ∧ replaceStep l = l ∧ collapseStep l = l := by
  refine ⟨map_id_of_fixed h.lowFixed, stripStep_id h.headOk h.lastOk,
    replaceStep_id h.keepAll, ?_⟩
  exact collapseAux_id l false h.spacesOK h.noDouble (by intro hb; exact absurd hb (by simp))

theorem normCore_idem_on {l : List Char} (h : NormOut l) : normCore l = l := by
  obtain ⟨_, hstrip, hrep, hcol⟩ := normOut_fixpoint h
  unfold normCore
  rw [hrep, hcol, hstrip]

theorem lowFixed_stripStep {l : List Char} (h : ∀ c ∈ l, pyLower c = c) :
    ∀ c ∈ stripStep l, pyLower c = c := fun c hc => h c (mem_of_mem_stripStep hc)

/-- C8 core: both normalizers are idempotent. -/
theorem normalize_joke_idem (s : String) :
    normalize_joke (normalize_joke s) = normalize_joke s := by
  unfold normalize_joke
  have hout : NormOut (normCore (stripStep (lowerStep s.data))) :=
    normCore_out (lowFixed_stripStep (lowerStep_fixed s.data))
  show String.mk (normCore (stripStep (lowerStep (normCore (stripStep (lowerStep s.data)))))) = _
  obtain ⟨hlow, hstrip, _, _⟩ := normOut_fixpoint hout
  rw [hlow, hstrip, normCore_idem_on hout]
  rfl

theorem auditNormalizeJoke_idem (s : String) :
    auditNormalizeJoke (auditNormalizeJoke s) = auditNormalizeJoke s := by
  unfold auditNormalizeJoke
  have hout : NormOut (normCore (lowerStep s.data)) := normCore_out (lowerStep_fixed s.data)
  show String.mk (normCore (lowerStep (normCore (lowerStep s.data)))) = _
  obtain ⟨hlow, _, _, _⟩ := normOut_fixpoint hout
  rw [hlow, normCore_idem_on hout]
  rfl

/-! ### Substring facts for the backspace animal-pun entries (C9) -/

theorem isPrefixOf_false_of_head_ne {p h : Char} {ps t : List Char} (hne : p ≠ h) :
    (p :: ps).isPrefixOf (h :: t) = false := by
  simp [List.isPrefixOf, hne]

theorem containsSub_false_of_head_notMem {hay : List Char} {p : Char} {ps : List Char}
    (h : p ∉ hay) : containsSub hay (p :: ps) = false := by
  induction hay with
  | nil => simp [containsSub, List.isPrefixOf]
  | cons x t ih =>
    have hpx : p ≠ x := fun he => h (he ▸ List.mem_cons_self x t)
    unfold containsSub
    rw [isPrefixOf_false_of_head_ne hpx]
    simp only [Bool.false_or]
    exact ih (fun hm => h (List.mem_cons_of_mem x hm))

theorem pyLower_ne_backspace {c : Char} (h : c ≠ '\x08') : pyLower c ≠ '\x08' := by
  intro he
  by_cases hu : (65 ≤ c.toNat && c.toNat ≤ 90) = true
  · have := pyLower_toNat_of_upper c hu
    rw [he] at this
    simp only [Bool.and_eq_true, decide_eq_true_eq] at hu
    have hx : ('\x08' : Char).toNat = 8 := by decide
    omega
  · exact h (by rw [← pyLower_eq_self c hu]; exact he)

theorem lower_no_backspace {l : List Char} (h : '\x08' ∉ l) :
    '\x08' ∉ lowerStep l := by
  intro hm
  rcases List.mem_map.mp hm with ⟨d, hd, hde⟩
  exact pyLower_ne_backspace (fun he => h (he ▸ hd)) hde

/-! ### Arg-max selection and score bounds (C2, C3) -/

theorem argmaxLevel_cases (f : Nat → Int) :
    argmaxLevel f = 1 ∨ argmaxLevel f = 2 ∨ argmaxLevel f = 3 ∨ argmaxLevel f = 4 ∨
      argmaxLevel f = 5 := by
  unfold argmaxLevel
  simp only [List.foldl]
  split_ifs <;> simp

theorem argmaxLevel_range (f : Nat → Int) :
    1 ≤ argmaxLevel f ∧ argmaxLevel f ≤ 5 := by
  rcases argmaxLevel_cases f with h | h | h | h | h <;> simp [h]

theorem argmaxLevel_ge (f : Nat → Int) :
    ∀ l ∈ ([1, 2, 3, 4, 5] : List Nat), f l ≤ f (argmaxLevel f) := by
  intro l hl
  unfold argmaxLevel
  simp only [List.foldl]
  fin_cases hl <;> (split_ifs <;> omega)

theorem argmaxLevel_lowest (f : Nat → Int) :
    ∀ l ∈ ([1, 2, 3, 4, 5] : List Nat), f l = f (argmaxLevel f) → argmaxLevel f ≤ l := by
  intro l hl he
  unfold argmaxLevel at he ⊢
  simp only [List.foldl] at he ⊢
  fin_cases hl <;> (split_ifs at he ⊢ <;> omega)

theorem profileScore_ge (p : LevelProfile) (joke lower : String) :
    p.base_score - 2 ≤ profileScore p joke lower := by
  unfold profileScore
  split_ifs <;> omega

set_option maxHeartbeats 1000000 in
theorem improvedScores_bounds (joke : String) :
    3 ≤ (improvedScores joke).s1 ∧ 8 ≤ (improvedScores joke).s2 ∧
    18 ≤ (improvedScores joke).s3 ∧ 28 ≤ (improvedScores joke).s4 ∧
    18 ≤ (improvedScores joke).s5 := by
  have h1 := profileScore_ge profile1 joke (pyLowerStr joke)
  have h2 := profileScore_ge profile2 joke (pyLowerStr joke)
  have h3 := profileScore_ge profile3 joke (pyLowerStr joke)
  have h4 := profileScore_ge profile4 joke (pyLowerStr joke)
  have h5 := profileScore_ge profile5 joke (pyLowerStr joke)
  rw [show profile1.base_score = 5 from rfl] at h1
  rw [show profile2.base_score = 10 from rfl] at h2
  rw [show profile3.base_score = 20 from rfl] at h3
  rw [show profile4.base_score = 30 from rfl] at h4
  rw [show profile5.base_score = 20 from rfl] at h5
  unfold improvedScores
  simp only [Scores.add, Scores.zero, apply_ite Scores.s1, apply_ite Scores.s2,
    apply_ite Scores.s3, apply_ite Scores.s4, apply_ite Scores.s5]
  split_ifs <;> exact ⟨by omega, by omega, by omega, by omega, by omega⟩

theorem origLevelScore_nonneg (ol : OrigLevel) (lower : String) :
    0 ≤ origLevelScore ol lower := by
  unfold origLevelScore
  omega

set_option maxHeartbeats 1000000 in
theorem originalScores_nonneg (joke : String) :
    0 ≤ (originalScores joke).s1 ∧ 0 ≤ (originalScores joke).s2 ∧
    0 ≤ (originalScores joke).s3 ∧ 0 ≤ (originalScores joke).s4 ∧
    0 ≤ (originalScores joke).s5 := by
  have h1 := origLevelScore_nonneg orig1 (pyLowerStr joke)
  have h2 := origLevelScore_nonneg orig2 (pyLowerStr joke)
  have h3 := origLevelScore_nonneg orig3 (pyLowerStr joke)
  have h4 := origLevelScore_nonneg orig4 (pyLowerStr joke)
  have h5 := origLevelScore_nonneg orig5 (pyLowerStr joke)
  unfold originalScores
  simp only [Scores.add, Scores.zero, apply_ite Scores.s1, apply_ite Scores.s2,
    apply_ite Scores.s3, apply_ite Scores.s4, apply_ite Scores.s5]
  split_ifs <;> exact ⟨by omega, by omega, by omega, by omega, by omega⟩

theorem scores_get_le_total (sc : Scores) (h1 : 0 ≤ sc.s1) (h2 : 0 ≤ sc.s2)
    (h3 : 0 ≤ sc.s3) (h4 : 0 ≤ sc.s4) (h5 : 0 ≤ sc.s5) :
    sc.get (argmaxLevel sc.get) ≤ sc.total := by
  rcases argmaxLevel_cases sc.get with h | h | h | h | h <;> rw [h] <;>
    simp only [Scores.get, Scores.total] <;> omega

theorem confOfScores_bounds (sc : Scores) (h1 : 3 ≤ sc.s1) (h2 : 3 ≤ sc.s2)
    (h3 : 3 ≤ sc.s3) (h4 : 3 ≤ sc.s4) (h5 : 3 ≤ sc.s5) :
    0 ≤ confOfScores sc ∧ confOfScores sc ≤ 1 := by
  have htot : 0 < sc.total := by simp only [Scores.total]; omega
  have hmax_pos : 0 < sc.get (argmaxLevel sc.get) := by
    rcases argmaxLevel_cases sc.get with h | h | h | h | h <;> rw [h] <;>
      simp only [Scores.get] <;> omega
  have hmax_le : sc.get (argmaxLevel sc.get) ≤ sc.total :=
    scores_get_le_total sc (by omega) (by omega) (by omega) (by omega) (by omega)
  have hden : (max sc.total 1 : Int) = sc.total := max_eq_left (by omega)
  unfold confOfScores
  simp only [hden, if_pos htot]
  have hq0 : 0 ≤ (sc.get (argmaxLevel sc.get) : ℚ) / (sc.total : ℚ) :=
    div_nonneg (by exact_mod_cast le_of_lt hmax_pos) (by exact_mod_cast le_of_lt htot)
  have hq1 : (sc.get (argmaxLevel sc.get) : ℚ) / (sc.total : ℚ) ≤ 1 := by
    rw [div_le_one (by exact_mod_cast htot)]
    exact_mod_cast hmax_le
  split_ifs with hboost
  · refine ⟨le_min (by norm_num) (mul_nonneg hq0 (by norm_num)), min_le_left _ _⟩
  · exact ⟨hq0, hq1⟩

theorem confOrig_bounds (sc : Scores) (h1 : 0 ≤ sc.s1) (h2 : 0 ≤ sc.s2)
    (h3 : 0 ≤ sc.s3) (h4 : 0 ≤ sc.s4) (h5 : 0 ≤ sc.s5) :
    0 ≤ confOrig sc ∧ confOrig sc ≤ 1 := by
  have hmax_nonneg : 0 ≤ sc.get (argmaxLevel sc.get) := by
    rcases argmaxLevel_cases sc.get with h | h | h | h | h <;> rw [h] <;>
      simp only [Scores.get] <;> omega
  have hmax_le : sc.get (argmaxLevel sc.get) ≤ sc.total :=
    scores_get_le_total sc h1 h2 h3 h4 h5
  have hden_pos : (0 : Int) < max sc.total 1 := lt_of_lt_of_le one_pos (le_max_right _ _)
  have hnum_le : sc.get (argmaxLevel sc.get) ≤ max sc.total 1 :=
    le_trans hmax_le (le_max_left _ _)
  unfold confOrig
  constructor
  · exact div_nonneg (by exact_mod_cast hmax_nonneg) (by exact_mod_cast le_of_lt hden_pos)
  · rw [div_le_one (by exact_mod_cast hden_pos)]
    exact_mod_cast hnum_le

/-! ### Dictionary and move lemmas (C4, C5, C10) -/

theorem dictGet_dictSet_self (d : Corpus) (k : String) (v : List String) :
    dictGet? (dictSet d k v) k = some v := by
  induction d with
  | nil => simp [dictSet, dictGet?]
  | cons p rest ih =>
    obtain ⟨k0, v0⟩ := p
    by_cases h : k0 = k
    · simp [dictSet, dictGet?, h]
    · simp [dictSet, dictGet?, h, ih]

theorem dictGet_dictSet_ne (d : Corpus) {k k' : String} (v : List String)
    (h : k' ≠ k) : dictGet? (dictSet d k v) k' = dictGet? d k' := by
  induction d with
  | nil => simp [dictSet, dictGet?, Ne.symm h]
  | cons p rest ih =>
    obtain ⟨k0, v0⟩ := p
    by_cases h0 : k0 = k
    · subst h0
      simp [dictSet, dictGet?, Ne.symm h]
    · simp [dictSet, dictGet?, h0, ih]

theorem totalJokes_dictSet (d : Corpus) (k : String) (v : List String) :
    totalJokes (dictSet d k v) + ((dictGet? d k).getD []).length
      = totalJokes d + v.length := by
  induction d with
  | nil => simp [dictSet, dictGet?, totalJokes]
  | cons p rest ih =>
    obtain ⟨k0, v0⟩ := p
    by_cases h : k0 = k
    · simp only [dictSet, dictGet?, if_pos h, totalJokes, List.map_cons, List.sum_cons,
        Option.getD_some]
      omega
    · simp only [dictSet, dictGet?, if_neg h, totalJokes, List.map_cons, List.sum_cons,
        Option.getD_some]
      simp only [totalJokes] at ih
      omega

theorem moveTarget_total (d1 : Corpus) (toK joke : String) :
    totalJokes (moveTarget d1 toK joke) = totalJokes d1 + 1 := by
  unfold moveTarget
  split
  next w heq =>
    have ht := totalJokes_dictSet d1 toK (w ++ [joke])
    rw [heq] at ht
    simp only [Option.getD_some, List.length_append, List.length_cons, List.length_nil] at ht
    omega
  next heq =>
    have ht2 := totalJokes_dictSet d1 toK ([] : List String)
    rw [heq] at ht2
    simp only [Option.getD_none, List.length_nil] at ht2
    have ht3 := totalJokes_dictSet (dictSet d1 toK ([] : List String)) toK
      (([] : List String) ++ [joke])
    rw [dictGet_dictSet_self] at ht3
    simp only [Option.getD_some, List.length_nil, List.nil_append, List.length_cons] at ht3
    simp only [List.nil_append] at ht3 ⊢
    omega

theorem moveStep_total (corpus : Corpus) (c : Candidate) :
    totalJokes (moveStep corpus c).1 = totalJokes corpus := by
  unfold moveStep
  split
  next lst heq =>
    split_ifs with hm
    · have herase : (lst.erase c.joke).length + 1 = lst.length := by
        rw [List.length_erase_of_mem hm]
        have hpos : 0 < lst.length := List.length_pos_of_mem hm
        omega
      have ht1 := totalJokes_dictSet corpus (Nat.repr c.from_level) (lst.erase c.joke)
      rw [heq] at ht1
      simp only [Option.getD_some] at ht1
      simp only [moveTarget_total]
      omega
    · rfl
  next heq => rfl

theorem applyStep_total (acc : Corpus × Nat × List (String × Nat)) (cand : Candidate) :
    totalJokes (applyStep acc cand).1 = totalJokes acc.1 := by
  unfold applyStep
  split_ifs <;> simp [moveStep_total]

theorem foldl_applyStep_total (cands : List Candidate)
    (acc : Corpus × Nat × List (String × Nat)) :
    totalJokes (cands.foldl applyStep acc).1 = totalJokes acc.1 := by
  induction cands generalizing acc with
  | nil => rfl
  | cons c cs ih => rw [List.foldl_cons, ih, applyStep_total]

/-! ### Move behaviour (C4, C5) -/

theorem moveTarget_get_to (d1 : Corpus) (toK joke : String) :
    dictGet? (moveTarget d1 toK joke) toK
      = some (((dictGet? d1 toK).getD []) ++ [joke]) := by
  unfold moveTarget
  split
  next w heq =>
    rw [dictGet_dictSet_self, heq]
    rfl
  next heq =>
    rw [dictGet_dictSet_self, heq]
    rfl

theorem moveTarget_get_other (d1 : Corpus) (toK joke k' : String) (h : k' ≠ toK) :
    dictGet? (moveTarget d1 toK joke) k' = dictGet? d1 k' := by
  unfold moveTarget
  split
  · rw [dictGet_dictSet_ne _ _ h]
  · rw [dictGet_dictSet_ne _ _ h, dictGet_dictSet_ne _ _ h]

theorem moveStep_present (corpus : Corpus) (c : Candidate) (lst : List String)
    (heq : dictGet? corpus (Nat.repr c.from_level) = some lst)
    (hm : c.joke ∈ lst)
    (hne : Nat.repr c.from_level ≠ Nat.repr c.to_level) :
    (moveStep corpus c).2 = true
    ∧ dictGet? (moveStep corpus c).1 (Nat.repr c.from_level) = some (lst.erase c.joke)
    ∧ dictGet? (moveStep corpus c).1 (Nat.repr c.to_level)
        = some (((dictGet? corpus (Nat.repr c.to_level)).getD []) ++ [c.joke]) := by
  unfold moveStep
  rw [heq]
  simp only [if_pos hm]
  refine ⟨by trivial, ?_, ?_⟩
  · rw [moveTarget_get_other _ _ _ _ hne, dictGet_dictSet_self]
  · rw [moveTarget_get_to, dictGet_dictSet_ne _ _ (Ne.symm hne)]

theorem moveStep_skip (corpus : Corpus) (c : Candidate)
    (h : Option.all (fun lst => !lst.contains c.joke)
          (dictGet? corpus (Nat.repr c.from_level)) = true) :
    moveStep corpus c = (corpus, false) := by
  unfold moveStep
  split
  next lst heq =>
    rw [heq] at h
    simp at h
    rw [if_neg h]
  next heq => rfl

theorem applyStep_skip (acc : Corpus × Nat × List (String × Nat)) (cand : Candidate)
    (h : Option.all (fun lst => !lst.contains cand.joke)
          (dictGet? acc.1 (Nat.repr cand.from_level)) = true) :
    applyStep acc cand = acc := by
  unfold applyStep
  rw [moveStep_skip acc.1 cand h]
  simp

theorem foldl_applyStep_stale (cands : List Candidate) (corpus : Corpus) (n : Nat)
    (pats : List (String × Nat))
    (h : ∀ cand ∈ cands, Option.all (fun lst => !lst.contains cand.joke)
          (dictGet? corpus (Nat.repr cand.from_level)) = true) :
    cands.foldl applyStep (corpus, n, pats) = (corpus, n, pats) := by
  induction cands with
  | nil => rfl
  | cons c cs ih =>
    rw [List.foldl_cons, applyStep_skip _ _ (h c (List.mem_cons_self c cs))]
    exact ih (fun d hd => h d (List.mem_cons_of_mem c hd))

theorem applyStep_count (acc : Corpus × Nat × List (String × Nat)) (cand : Candidate) :
    (applyStep acc cand).2.1 ≤ acc.2.1 + 1 := by
  unfold applyStep
  split_ifs <;> simp

theorem foldl_applyStep_count (cands : List Candidate)
    (acc : Corpus × Nat × List (String × Nat)) :
    (cands.foldl applyStep acc).2.1 ≤ acc.2.1 + cands.length := by
  induction cands generalizing acc with
  | nil => simp
  | cons c cs ih =>
    rw [List.foldl_cons]
    have h1 := ih (applyStep acc c)
    have h2 := applyStep_count acc c
    simp only [List.length_cons]
    omega

theorem selectedMoves_mem (plan : Plan) (minConf : ℚ) (cand : Candidate) :
    cand ∈ selectedMoves plan minConf ↔
      cand ∈ plan.high_confidence ∨
        (cand ∈ plan.medium_confidence ∧ minConf ≤ cand.confidence) := by
  simp [selectedMoves, List.mem_append, List.mem_filter]

/-! ### Duplicate detection lemmas (C6) -/

theorem countP_congr_bool {α : Type} {p q : α → Bool} {l : List α}
    (h : ∀ a ∈ l, p a = q a) : l.countP p = l.countP q := by
  induction l with
  | nil => rfl
  | cons x xs ih =>
    rw [List.countP_cons, List.countP_cons, h x (List.mem_cons_self x xs),
      ih (fun a ha => h a (List.mem_cons_of_mem x ha))]

theorem pairsOf_mem {α : Type} {l : List α} {u v : α} (h : (u, v) ∈ pairsOf l) :
    u ∈ l ∧ v ∈ l := by
  induction l with
  | nil => simp [pairsOf] at h
  | cons x xs ih =>
    unfold pairsOf at h
    rcases List.mem_append.mp h with hmap | hrec
    · rcases List.mem_map.mp hmap with ⟨y, hy, he⟩
      injection he with h1 h2
      subst h1
      subst h2
      exact ⟨List.mem_cons_self _ _, List.mem_cons_of_mem _ hy⟩
    · obtain ⟨hu, hv⟩ := ih hrec
      exact ⟨List.mem_cons_of_mem _ hu, List.mem_cons_of_mem _ hv⟩

theorem countP_filterMap {α β : Type} (f : α → Option β) (p : β → Bool) (l : List α) :
    (l.filterMap f).countP p = l.countP (fun a => ((f a).map p).getD false) := by
  induction l with
  | nil => rfl
  | cons x xs ih =>
    rw [List.filterMap_cons]
    cases hf : f x with
    | none => simp [List.countP_cons, hf, ih]
    | some b => simp [List.countP_cons, hf, ih]

theorem countP_decide_eq_one {α : Type} [DecidableEq α] {xs : List α} {b : α}
    (hnd : xs.Nodup) (hb : b ∈ xs) :
    xs.countP (fun y => decide (y = b)) = 1 := by
  induction xs with
  | nil => simp at hb
  | cons x t ih =>
    rw [List.countP_cons]
    rcases List.mem_cons.mp hb with hbe | hbt
    · have hnotin : b ∉ t := hbe ▸ (List.nodup_cons.mp hnd).1
      have hzero : t.countP (fun y => decide (y = b)) = 0 :=
        List.countP_eq_zero.mpr (fun a ha hpa => by
          simp at hpa
          exact hnotin (hpa ▸ ha))
      rw [hzero, ← hbe]
      simp
    · have hx : x ≠ b := fun he => (List.nodup_cons.mp hnd).1 (he ▸ hbt)
      rw [ih (List.nodup_cons.mp hnd).2 hbt]
      simp [hx]

theorem pairsOf_countP_one {α : Type} [DecidableEq α] {l : List α} {a b : α}
    (hnd : l.Nodup) (ha : a ∈ l) (hb : b ∈ l) (hab : a ≠ b) :
    (pairsOf l).countP (fun pr =>
      (decide (pr.1 = a) && decide (pr.2 = b))
        || (decide (pr.1 = b) && decide (pr.2 = a))) = 1 := by
  induction l with
  | nil => simp at ha
  | cons x xs ih =>
    obtain ⟨hxn, hxsnd⟩ := List.nodup_cons.mp hnd
    unfold pairsOf
    rw [List.countP_append, List.countP_map]
    rcases List.mem_cons.mp ha with hax | haxs
    · subst hax
      have hbxs : b ∈ xs := by
        rcases List.mem_cons.mp hb with hbe | hmem
        · exact absurd hbe.symm hab
        · exact hmem
      have hmapc : xs.countP ((fun pr : α × α =>
          (decide (pr.1 = a) && decide (pr.2 = b))
            || (decide (pr.1 = b) && decide (pr.2 = a))) ∘ (fun y => (a, y)))
          = 1 := by
        rw [countP_congr_bool (q := fun y => decide (y = b))
          (by intro y hy; simp [Function.comp, hab, Ne.symm hab])]
        exact countP_decide_eq_one hxsnd hbxs
      have hrecz : (pairsOf xs).countP (fun pr : α × α =>
          (decide (pr.1 = a) && decide (pr.2 = b))
            || (decide (pr.1 = b) && decide (pr.2 = a))) = 0 := by
        apply List.countP_eq_zero.mpr
        rintro ⟨u, v⟩ hpr hP
        obtain ⟨hu, hv⟩ := pairsOf_mem hpr
        simp at hP
        rcases hP with ⟨h1, _⟩ | ⟨_, h2⟩
        · exact hxn (h1 ▸ hu)
        · exact hxn (h2 ▸ hv)
      rw [hmapc, hrecz]
    · rcases List.mem_cons.mp hb with hbx | hbxs
      · subst hbx
        have haxs2 : a ∈ xs := haxs
        have hmapc : xs.countP ((fun pr : α × α =>
            (decide (pr.1 = a) && decide (pr.2 = b))
              || (decide (pr.1 = b) && decide (pr.2 = a))) ∘ (fun y => (b, y)))
            = 1 := by
          rw [countP_congr_bool (q := fun y => decide (y = a))
            (by intro y hy; simp [Function.comp, hab, Ne.symm hab])]
          exact countP_decide_eq_one hxsnd haxs2
        have hrecz : (pairsOf xs).countP (fun pr : α × α =>
            (decide (pr.1 = a) && decide (pr.2 = b))
              || (decide (pr.1 = b) && decide (pr.2 = a))) = 0 := by
          apply List.countP_eq_zero.mpr
          rintro ⟨u, v⟩ hpr hP
          obtain ⟨hu, hv⟩ := pairsOf_mem hpr
          simp at hP
          rcases hP with ⟨_, h2⟩ | ⟨h1, _⟩
          · exact hxn (h2 ▸ hv)
          · exact hxn (h1 ▸ hu)
        rw [hmapc, hrecz]
      · have hxa : x ≠ a := fun he => hxn (he ▸ haxs)
        have hxb : x ≠ b := fun he => hxn (he ▸ hbxs)
        have hmapz : xs.countP ((fun pr : α × α =>
            (decide (pr.1 = a) && decide (pr.2 = b))
              || (decide (pr.1 = b) && decide (pr.2 = a))) ∘ (fun y => (x, y)))
            = 0 := by
          apply List.countP_eq_zero.mpr
          intro y hy hP
          simp [Function.comp, hxa, hxb] at hP
        rw [hmapz, ih hxsnd haxs hbxs]

theorem allJokes_norm {corpus : Corpus} {e : JokeEntry} (h : e ∈ allJokes corpus) :
    e.norm = auditNormalizeJoke e.text := by
  unfold allJokes at h
  rcases List.mem_flatMap.mp h with ⟨p, _, he⟩
  rcases List.mem_map.mp he with ⟨iv, _, heq⟩
  rw [← heq]

theorem allJokes_nodup {corpus : Corpus} (h : (corpus.map Prod.fst).Nodup) :
    (allJokes corpus).Nodup := by
  unfold allJokes
  rw [List.nodup_flatMap]
  constructor
  · intro p _
    apply List.Nodup.map
    · intro iv1 iv2 he
      simp only [JokeEntry.mk.injEq] at he
      exact Prod.ext he.2.1 he.2.2.1
    · have h1 := List.enum_map_fst p.2
      have h2 : (p.2.enum.map Prod.fst).Nodup := by
        rw [h1]
        exact List.nodup_range _
      exact List.Nodup.of_map _ h2
  · have hpw : corpus.Pairwise (fun p q => p.1 ≠ q.1) := List.pairwise_map.mp h
    apply hpw.imp
    intro p q hne e hep heq2
    rcases List.mem_map.mp hep with ⟨iv, _, he1⟩
    rcases List.mem_map.mp heq2 with ⟨iv2, _, he2⟩
    apply hne
    have hl1 : e.level = p.1 := (congrArg JokeEntry.level he1).symm
    have hl2 : e.level = q.1 := (congrArg JokeEntry.level he2).symm
    rw [← hl1, ← hl2]

theorem detect_duplicates_pair (simFn : String → String → ℚ)
    (hsim : ∀ s, simFn s s = 100) (corpus : Corpus)
    (hkeys : (corpus.map Prod.fst).Nodup) (e1 e2 : JokeEntry)
    (h1 : e1 ∈ allJokes corpus) (h2 : e2 ∈ allJokes corpus)
    (htext : e1.text = e2.text) (hlvl : e1.level ≠ e2.level) :
    (detect_duplicates simFn 85 corpus).countP (samePairB e1 e2) = 1
    ∧ ∀ d ∈ detect_duplicates simFn 85 corpus,
        samePairB e1 e2 d = true → d.similarity = 100 := by
  have hnorm : e1.norm = e2.norm := by
    rw [allJokes_norm h1, allJokes_norm h2, htext]
  have hne : e1 ≠ e2 := fun he => hlvl (congrArg JokeEntry.level he)
  constructor
  · unfold detect_duplicates
    rw [countP_filterMap]
    have hcong : ∀ pr ∈ pairsOf (allJokes corpus),
        (((if (85:ℚ) ≤ simFn pr.1.norm pr.2.norm
            then some (⟨simFn pr.1.norm pr.2.norm, pr.1, pr.2⟩ : DupCand)
            else none).map (samePairB e1 e2)).getD false)
          = ((decide (pr.1 = e1) && decide (pr.2 = e2))
              || (decide (pr.1 = e2) && decide (pr.2 = e1))) := by
      rintro ⟨u, v⟩ _
      by_cases hm : ((decide (u = e1) && decide (v = e2))
          || (decide (u = e2) && decide (v = e1))) = true
      · have hsimuv : simFn u.norm v.norm = 100 := by
          simp only [Bool.or_eq_true, Bool.and_eq_true, decide_eq_true_eq] at hm
          rcases hm with ⟨hu, hv⟩ | ⟨hu, hv⟩
          · rw [hu, hv, hnorm]; exact hsim _
          · rw [hu, hv, ← hnorm]; exact hsim _
        simp only [hsimuv]
        rw [if_pos (by norm_num : (85:ℚ) ≤ 100)]
        rfl
      · simp only [Bool.not_eq_true] at hm
        by_cases hif : (85:ℚ) ≤ simFn u.norm v.norm
        · rw [if_pos hif]
          simp [samePairB, hm]
        · rw [if_neg hif]
          simpa using hm.symm
    rw [countP_congr_bool hcong]
    exact pairsOf_countP_one (allJokes_nodup hkeys) h1 h2 hne
  · intro d hd hP
    unfold detect_duplicates at hd
    rcases List.mem_filterMap.mp hd with ⟨pr, _, hf⟩
    by_cases hif : (85:ℚ) ≤ simFn pr.1.norm pr.2.norm
    · rw [if_pos hif] at hf
      injection hf with hf
      subst hf
      simp only [samePairB, Bool.or_eq_true, Bool.and_eq_true, decide_eq_true_eq] at hP
      rcases hP with ⟨hu, hv⟩ | ⟨hu, hv⟩
      · show simFn pr.1.norm pr.2.norm = 100
        rw [hu, hv, hnorm]
        exact hsim _
      · show simFn pr.1.norm pr.2.norm = 100
        rw [hu, hv, ← hnorm]
        exact hsim _
    · rw [if_neg hif] at hf
      exact absurd hf (by simp)

/-! ## Claim theorems -/

/-- C1: On the input "Why don't scientists trust atoms? Because they make up
everything!", `validate_content` returns ok with an empty issue list and the
classifier assigns a corniness level in {2,3} (it assigns 2).  The validator
and classifier are those of `ImprovedJokeRater` (`rate_jokes_improved_backup.py`),
the variant whose marker list implements the spec's resolution that `because`
is not an explanation marker; the classifier cited by the claim is
`rate_corniness_improved`. -/
theorem C1_scenario :
    (validate_content_improved scenarioJoke).1 = true
    ∧ (validate_content_improved scenarioJoke).2 = []
    ∧ ((rate_corniness_improved scenarioJoke).1 = 2 ∨
       (rate_corniness_improved scenarioJoke).1 = 3) := by
  refine ⟨by decide, by decide, Or.inl (by decide)⟩

/-- C2: For every non-empty input string both classifiers return (they are
total functions) a level in {1,..,5} and a confidence in [0,1]. -/
theorem C2_total_range (joke : String) (hne : joke ≠ "") :
    (1 ≤ (rate_corniness_improved joke).1 ∧ (rate_corniness_improved joke).1 ≤ 5
      ∧ 0 ≤ (rate_corniness_improved joke).2 ∧ (rate_corniness_improved joke).2 ≤ 1)
    ∧ (1 ≤ (rate_corniness joke).1 ∧ (rate_corniness joke).1 ≤ 5
      ∧ 0 ≤ (rate_corniness joke).2 ∧ (rate_corniness joke).2 ≤ 1) := by
  obtain ⟨b1, b2, b3, b4, b5⟩ := improvedScores_bounds joke
  obtain ⟨o1, o2, o3, o4, o5⟩ := originalScores_nonneg joke
  have hi := confOfScores_bounds (improvedScores joke) b1 (by omega) (by omega)
    (by omega) (by omega)
  have ho := confOrig_bounds (originalScores joke) o1 o2 o3 o4 o5
  have hr1 := argmaxLevel_range (improvedScores joke).get
  have hr2 := argmaxLevel_range (originalScores joke).get
  exact ⟨⟨hr1.1, hr1.2, hi.1, hi.2⟩, ⟨hr2.1, hr2.2, ho.1, ho.2⟩⟩

theorem C2_witness :
    ("ha!" : String) ≠ ""
    ∧ ((1 ≤ (rate_corniness_improved "ha!").1 ∧ (rate_corniness_improved "ha!").1 ≤ 5
        ∧ 0 ≤ (rate_corniness_improved "ha!").2 ∧ (rate_corniness_improved "ha!").2 ≤ 1)
      ∧ (1 ≤ (rate_corniness "ha!").1 ∧ (rate_corniness "ha!").1 ≤ 5
        ∧ 0 ≤ (rate_corniness "ha!").2 ∧ (rate_corniness "ha!").2 ≤ 1)) :=
  ⟨by decide, C2_total_range "ha!" (by decide)⟩

/-- C3: Each classifier returns a level whose score is maximal among the five
per-level scores, and any level achieving the same (maximal) score is at least
the returned one — the returned level is the lowest-numbered maximizer, as
`max(scores, key=scores.get)` replaces the running best only on a strictly
greater score. -/
theorem C3_argmax_tiebreak (joke : String) :
    (∀ l ∈ ([1, 2, 3, 4, 5] : List Nat),
      (improvedScores joke).get l
          ≤ (improvedScores joke).get ((rate_corniness_improved joke).1)
        ∧ ((improvedScores joke).get l
              = (improvedScores joke).get ((rate_corniness_improved joke).1)
            → (rate_corniness_improved joke).1 ≤ l))
    ∧ (∀ l ∈ ([1, 2, 3, 4, 5] : List Nat),
      (originalScores joke).get l
          ≤ (originalScores joke).get ((rate_corniness joke).1)
        ∧ ((originalScores joke).get l
              = (originalScores joke).get ((rate_corniness joke).1)
            → (rate_corniness joke).1 ≤ l)) := by
  constructor
  · intro l hl
    exact ⟨argmaxLevel_ge _ l hl, argmaxLevel_lowest _ l hl⟩
  · intro l hl
    exact ⟨argmaxLevel_ge _ l hl, argmaxLevel_lowest _ l hl⟩

theorem C3_witness :
    (improvedScores "abc").get 3
        ≤ (improvedScores "abc").get ((rate_corniness_improved "abc").1)
      ∧ ((improvedScores "abc").get 3
            = (improvedScores "abc").get ((rate_corniness_improved "abc").1)
          → (rate_corniness_improved "abc").1 ≤ 3) :=
  (C3_argmax_tiebreak "abc").1 3 (by decide)

/-- C4 counterexample: the claim says apply moves exactly the plan candidates
with confidence ≥ min_confidence.  But the high tier is moved unconditionally:
with min_confidence = 0.7, the single candidate at confidence 0.6 < 0.7 is
still moved and the corpus changes. -/
theorem C4_counterexample :
    planHigh06.high_confidence = [⟨"J", 1, 2, 3 / 5⟩]
    ∧ ((3 : ℚ) / 5 < 7 / 10)
    ∧ apply_reclassification planHigh06 (7 / 10) corpusJ
        = ([("1", []), ("2", ["J"])], 1, [("1->2", 1)])
    ∧ ([("1", []), ("2", ["J"])] : Corpus) ≠ corpusJ := by
  refine ⟨rfl, by norm_num, by decide, by decide⟩

/-- C4 (amended): non-dry-run application moves the high-confidence tier
unconditionally plus exactly the medium-tier candidates with confidence ≥
min_confidence; each selected joke present in its source level is removed
from the source level's list and appended to the target level's list
(creating the target key if absent); a candidate with confidence 0.5 under
min_confidence = 0.6 is not moved and the corpus is unchanged. -/
theorem C4_amended_apply (plan : Plan) (minConf : ℚ) :
    (∀ cand : Candidate, cand ∈ selectedMoves plan minConf ↔
        cand ∈ plan.high_confidence ∨
          (cand ∈ plan.medium_confidence ∧ minConf ≤ cand.confidence))
    ∧ (∀ (corpus : Corpus) (c : Candidate) (lst : List String),
        dictGet? corpus (Nat.repr c.from_level) = some lst →
        c.joke ∈ lst →
        Nat.repr c.from_level ≠ Nat.repr c.to_level →
        (moveStep corpus c).2 = true
        ∧ dictGet? (moveStep corpus c).1 (Nat.repr c.from_level)
            = some (lst.erase c.joke)
        ∧ dictGet? (moveStep corpus c).1 (Nat.repr c.to_level)
            = some (((dictGet? corpus (Nat.repr c.to_level)).getD []) ++ [c.joke]))
    ∧ apply_reclassification planMedium05 (3 / 5) corpusJ = (corpusJ, 0, []) := by
  refine ⟨selectedMoves_mem plan minConf, ?_, ?_⟩
  · intro corpus c lst heq hm hne
    exact moveStep_present corpus c lst heq hm hne
  · have hsel : selectedMoves planMedium05 (3 / 5) = [] := by
      unfold selectedMoves planMedium05
      norm_num [List.filter]
    unfold apply_reclassification
    rw [hsel]
    rfl

theorem C4_witness :
    (moveStep corpusJ ⟨"J", 1, 2, 9 / 10⟩).2 = true
    ∧ dictGet? (moveStep corpusJ ⟨"J", 1, 2, 9 / 10⟩).1 (Nat.repr 1)
        = some (["J"].erase "J")
    ∧ dictGet? (moveStep corpusJ ⟨"J", 1, 2, 9 / 10⟩).1 (Nat.repr 2)
        = some (((dictGet? corpusJ (Nat.repr 2)).getD []) ++ ["J"]) :=
  (C4_amended_apply planHigh06 (7 / 10)).2.1 corpusJ ⟨"J", 1, 2, 9 / 10⟩ ["J"]
    (by decide) (by decide) (by decide)

/-- C5 counterexample: the result of `apply_reclassification` is only
`{'moves_applied', 'patterns'}` — it carries no count of skipped moves.  Two
plans with different numbers of stale (skipped) candidates produce identical
results, so no count of skipped moves is surfaced in the result. -/
theorem C5_counterexample :
    apply_reclassification planStale1 (2 / 5) corpusJ
        = apply_reclassification planStale2 (2 / 5) corpusJ
    ∧ apply_reclassification planStale1 (2 / 5) corpusJ = (corpusJ, 0, [])
    ∧ (selectedMoves planStale1 (2 / 5)).length = 1
    ∧ (selectedMoves planStale2 (2 / 5)).length = 2 := by
  refine ⟨by decide, by decide, by decide, by decide⟩

/-- C5 (amended): a move whose joke is not present in its claimed source level
is skipped without raising (the embedding is a total function and the step
leaves the state unchanged), the corpus is unchanged for that candidate, and
the result reports the count of applied moves (bounded by the selected
candidates); the number of skipped moves is not part of the result. -/
theorem C5_amended_skip :
    (∀ (corpus : Corpus) (cand : Candidate),
      Option.all (fun lst => !lst.contains cand.joke)
          (dictGet? corpus (Nat.repr cand.from_level)) = true →
        moveStep corpus cand = (corpus, false))
    ∧ (∀ (plan : Plan) (minConf : ℚ) (corpus : Corpus),
        (∀ cand ∈ selectedMoves plan minConf,
          Option.all (fun lst => !lst.contains cand.joke)
            (dictGet? corpus (Nat.repr cand.from_level)) = true) →
        apply_reclassification plan minConf corpus = (corpus, 0, []))
    ∧ (∀ (plan : Plan) (minConf : ℚ) (corpus : Corpus),
        (apply_reclassification plan minConf corpus).2.1
          ≤ (selectedMoves plan minConf).length) := by
  refine ⟨moveStep_skip, ?_, ?_⟩
  · intro plan minConf corpus h
    unfold apply_reclassification
    exact foldl_applyStep_stale _ _ _ _ h
  · intro plan minConf corpus
    unfold apply_reclassification
    have h := foldl_applyStep_count (selectedMoves plan minConf) (corpus, 0, [])
    simpa using h

theorem C5_witness :
    (∀ cand ∈ selectedMoves planStale1 (2 / 5),
      Option.all (fun lst => !lst.contains cand.joke)
        (dictGet? corpusJ (Nat.repr cand.from_level)) = true)
    ∧ apply_reclassification planStale1 (2 / 5) corpusJ = (corpusJ, 0, []) :=
  ⟨by decide, C5_amended_skip.2.1 planStale1 (2 / 5) corpusJ (by decide)⟩

/-- C6: exact duplicates.  `are_duplicates` reports byte-identical jokes as
duplicates for every threshold (the exact-match fast path); in
`detect_duplicates` (threshold configured to 85), for every corpus (with the
unique JSON keys) holding two byte-identical jokes in two different levels the
pair is reported exactly once, with similarity 100; on the corpus
`{"1": ["Joke A"], "2": ["Joke A"]}` exactly the one pair is returned.  The
`rapidfuzz.fuzz.token_set_ratio` similarity is a parameter `simFn` with its
documented property that identical strings score 100. -/
theorem C6_exact_duplicates (simFn : String → String → ℚ)
    (hsim : ∀ s, simFn s s = 100) :
    (∀ (threshold : ℚ) (j : String), are_duplicates simFn j j threshold = true)
    ∧ (∀ corpus : Corpus, (corpus.map Prod.fst).Nodup →
        ∀ e1 e2 : JokeEntry, e1 ∈ allJokes corpus → e2 ∈ allJokes corpus →
          e1.text = e2.text → e1.level ≠ e2.level →
          (detect_duplicates simFn 85 corpus).countP (samePairB e1 e2) = 1
          ∧ ∀ d ∈ detect_duplicates simFn 85 corpus,
              samePairB e1 e2 d = true → d.similarity = 100)
    ∧ detect_duplicates simFn 85 dupCorpus = [⟨100, dupEntry1, dupEntry2⟩] := by
  refine ⟨?_, ?_, ?_⟩
  · intro threshold j
    unfold are_duplicates
    simp
  · intro corpus hkeys e1 e2 h1 h2 htext hlvl
    exact detect_duplicates_pair simFn hsim corpus hkeys e1 e2 h1 h2 htext hlvl
  · have hall : allJokes dupCorpus = [dupEntry1, dupEntry2] := by rfl
    unfold detect_duplicates
    rw [hall]
    rw [show pairsOf [dupEntry1, dupEntry2] = [(dupEntry1, dupEntry2)] from rfl]
    simp only [List.filterMap_cons, List.filterMap_nil]
    rw [show simFn dupEntry1.norm dupEntry2.norm = 100 from by
      rw [show dupEntry1.norm = dupEntry2.norm from rfl]
      exact hsim _]
    norm_num

theorem C6_witness :
    are_duplicates eqSim "Joke A" "Joke A" 200 = true
    ∧ (detect_duplicates eqSim 85 dupCorpus).countP (samePairB dupEntry1 dupEntry2) = 1
    ∧ detect_duplicates eqSim 85 dupCorpus = [⟨100, dupEntry1, dupEntry2⟩] := by
  have hsim : ∀ s, eqSim s s = 100 := fun s => by simp [eqSim]
  have h := C6_exact_duplicates eqSim hsim
  refine ⟨h.1 200 "Joke A", ?_, h.2.2⟩
  exact (h.2.1 dupCorpus (by decide) dupEntry1 dupEntry2 (by decide) (by decide) rfl
    (by decide)).1

/-- Helper for C7: any overlong joke fails validation with the length issue,
for either marker list. -/
theorem validateWith_long (m : List String) (joke : String)
    (h : max_length < joke.length) :
    (validateWith m joke).1 = false
    ∧ tooLongMsg joke.length ∈ (validateWith m joke).2 := by
  unfold validateWith
  rw [if_pos h]
  constructor
  · simp
  · simp

set_option maxRecDepth 8000 in
/-- C7: every string longer than the configured maximum (180) fails validation
with a length issue, in both raters; the 200-character string draws the issue
"Too long: 200 chars (max 180)", citing 200 and the configured max 180. -/
theorem C7_overlong_invalid :
    (∀ joke : String, max_length < joke.length →
      (validate_content joke).1 = false
      ∧ tooLongMsg joke.length ∈ (validate_content joke).2
      ∧ (validate_content_improved joke).1 = false
      ∧ tooLongMsg joke.length ∈ (validate_content_improved joke).2)
    ∧ longJoke.length = 200
    ∧ "Too long: 200 chars (max 180)" ∈ (validate_content_improved longJoke).2
    ∧ (validate_content_improved longJoke).1 = false := by
  refine ⟨?_, by decide, by decide, by decide⟩
  intro joke h
  obtain ⟨ho1, ho2⟩ := validateWith_long explanation_markers_original joke h
  obtain ⟨hi1, hi2⟩ := validateWith_long explanation_markers_improved joke h
  exact ⟨ho1, ho2, hi1, hi2⟩

set_option maxRecDepth 8000 in
theorem C7_witness :
    max_length < longJoke.length
    ∧ ((validate_content longJoke).1 = false
       ∧ tooLongMsg longJoke.length ∈ (validate_content longJoke).2
       ∧ (validate_content_improved longJoke).1 = false
       ∧ tooLongMsg longJoke.length ∈ (validate_content_improved longJoke).2) :=
  ⟨by decide, C7_overlong_invalid.1 longJoke (by decide)⟩

/-- C8: both normalizers (`normalize_joke` of `deduplicate_jokes.py` and
`_normalize_joke` of `audit_jokes.py`) are idempotent. -/
theorem C8_normalize_idempotent (s : String) :
    normalize_joke (normalize_joke s) = normalize_joke s
    ∧ auditNormalizeJoke (auditNormalizeJoke s) = auditNormalizeJoke s :=
  ⟨normalize_joke_idem s, auditNormalizeJoke_idem s⟩

/-- C9: the six `animal_puns` entries written with non-raw `\b` contain a
literal backspace character, so on any joke text free of backspace characters
none of them matches and only `udderly` and `dairy` can contribute to the
animal-pun count. -/
theorem C9_backspace_animal_puns (joke : String) (h : '\x08' ∉ joke.data) :
    (∀ p ∈ (["\x08moo\x08", "\x08paws\x08", "\x08fur\x08", "\x08tail\x08",
             "\x08purr\x08", "\x08beef\x08"] : List String),
        '\x08' ∈ p.data ∧ pyContains (pyLowerStr joke) p = false)
    ∧ animalPunMatchCount (pyLowerStr joke) =
        (if pyContains (pyLowerStr joke) "udderly" then 1 else 0)
        + (if pyContains (pyLowerStr joke) "dairy" then 1 else 0) := by
  have hlow : '\x08' ∉ (pyLowerStr joke).data := lower_no_backspace h
  have hdead : ∀ rest : List Char,
      containsSub (pyLowerStr joke).data ('\x08' :: rest) = false :=
    fun rest => containsSub_false_of_head_notMem hlow
  constructor
  · intro p hp
    fin_cases hp <;> exact ⟨by decide, hdead _⟩
  · have d1 : pyContains (pyLowerStr joke) "\x08moo\x08" = false := hdead _
    have d2 : pyContains (pyLowerStr joke) "\x08paws\x08" = false := hdead _
    have d3 : pyContains (pyLowerStr joke) "\x08fur\x08" = false := hdead _
    have d4 : pyContains (pyLowerStr joke) "\x08tail\x08" = false := hdead _
    have d5 : pyContains (pyLowerStr joke) "\x08purr\x08" = false := hdead _
    have d6 : pyContains (pyLowerStr joke) "\x08beef\x08" = false := hdead _
    unfold animalPunMatchCount animal_puns
    by_cases hud : pyContains (pyLowerStr joke) "udderly" = true <;>
      by_cases hda : pyContains (pyLowerStr joke) "dairy" = true <;>
        simp [List.filter_cons, d1, d2, d3, d4, d5, d6, hud, hda]

theorem C9_witness :
    ('\x08' ∉ ("the cow says moo" : String).data)
    ∧ animalPunMatchCount (pyLowerStr "the cow says moo") =
        (if pyContains (pyLowerStr "the cow says moo") "udderly" then 1 else 0)
        + (if pyContains (pyLowerStr "the cow says moo") "dairy" then 1 else 0) :=
  ⟨by decide, (C9_backspace_animal_puns "the cow says moo" (by decide)).2⟩

/-- C10: non-dry-run plan application preserves the total number of jokes in
the corpus: each applied move removes one occurrence from the source level and
appends one to the target level, skipped moves change nothing. -/
theorem C10_apply_preserves_total (plan : Plan) (minConf : ℚ) (corpus : Corpus) :
    totalJokes (apply_reclassification plan minConf corpus).1 = totalJokes corpus := by
  unfold apply_reclassification
  exact foldl_applyStep_total _ _

end Punny
